import Mathlib

/-!
Verification development for the git-reader repository (read path of a git
object database).  The Rust sources under `src/` are shallowly embedded:
byte buffers and strings become `List Nat` / `List Char`, machine integers
become `Nat` (the source's `u128` arithmetic never overflows in the code
modelled here, which is noted where relevant), fallible functions return
`Except` or `Option`, and a Rust index-out-of-bounds panic is modelled as a
distinct outcome separate from an `io::Result` error.
-/

namespace GitReader

/-- `mmap.get (start..start+len)` / `slice.get (range)`: `some` of the
sub-slice when the range is in bounds, `none` otherwise. -/
def getRange (l : List Nat) (start len : Nat) : Option (List Nat) :=
  if start + len ≤ l.length then some ((l.drop start).take len) else none

/-- Rust `arr[pos..pos+vals.len()].copy_from_slice(vals)` on a buffer that is
large enough: overwrite `vals.length` entries of `arr` starting at `pos`. -/
def setSlice (arr : List Nat) (pos : Nat) (vals : List Nat) : List Nat :=
  arr.take pos ++ vals ++ arr.drop (pos + vals.length)

/-! ## object_id.rs -/

/-- Value of one hex character, as accepted by Rust's
`from_str_radix(_, 16)` (both cases accepted). -/
def hexCharToNat? (c : Char) : Option Nat :=
  if '0' ≤ c ∧ c ≤ '9' then some (c.toNat - '0'.toNat)
  else if 'a' ≤ c ∧ c ≤ 'f' then some (c.toNat - 'a'.toNat + 10)
  else if 'A' ≤ c ∧ c ≤ 'F' then some (c.toNat - 'A'.toNat + 10)
  else none

/-- Accumulator loop of `from_str_radix(_, 16)`. -/
def parseHexDigits : Nat → List Char → Option Nat
  | acc, [] => some acc
  | acc, c :: rest =>
    match hexCharToNat? c with
    | none => none
    | some d => parseHexDigits (acc * 16 + d) rest

/-- `u128::from_str_radix(s, 16)` (and `u8::from_str_radix`) on digit
strings: fails on the empty string or on a non-hex character. -/
def fromStrRadix16 (l : List Char) : Option Nat :=
  if l.isEmpty then none else parseHexDigits 0 l

/-- Lowercase hex digit for a value `< 16` (the `{:x}` formatter digits). -/
def hexDigitChar (d : Nat) : Char :=
  if d = 0 then '0' else if d = 1 then '1' else if d = 2 then '2'
  else if d = 3 then '3' else if d = 4 then '4' else if d = 5 then '5'
  else if d = 6 then '6' else if d = 7 then '7' else if d = 8 then '8'
  else if d = 9 then '9' else if d = 10 then 'a' else if d = 11 then 'b'
  else if d = 12 then 'c' else if d = 13 then 'd' else if d = 14 then 'e'
  else 'f'

/-- Hex digits of `n`, most significant first (what `format!("{:x}", n)`
prints, digit by digit). -/
def toHexDigits (n : Nat) : List Nat :=
  if h : n < 16 then [n]
  else toHexDigits (n / 16) ++ [n % 16]
decreasing_by exact Nat.div_lt_self (by omega) (by omega)

/-- `format!("{:x}", h)` for an unsigned value: lowercase hex, no padding. -/
def formatHex (n : Nat) : List Char :=
  (toHexDigits n).map hexDigitChar

/-- `hex_u128_to_str`: format as hex and left-pad with `'0'` to 32 chars. -/
def hexU128ToStr (h : Nat) : List Char :=
  let hashStr := formatHex h
  if hashStr.length = 32 then hashStr
  else List.replicate (32 - hashStr.length) '0' ++ hashStr

/-- `oid_str_truncated_to_oid`: `from_str_radix` over the 32-char array. -/
def oidStrTruncatedToOid (oidStr : List Char) : Except String Nat :=
  match fromStrRadix16 oidStr with
  | some n => .ok n
  | none => .error "invalid hex string"

/-- `hash_str_to_oid`: take the first 32 chars (error when fewer) and parse. -/
def hashStrToOid (hash : List Char) : Except String Nat :=
  if hash.length < 32 then .error "Your hash must be at least 32 hex chars long"
  else oidStrTruncatedToOid (hash.take 32)

/-- The two chars `format!("{:02x}", byte)` prints for a byte. -/
def hexByteChars (b : Nat) : List Char :=
  [hexDigitChar (b / 16 % 16), hexDigitChar (b % 16)]

/-- `oid_full_to_string`: 40 lowercase hex chars, two per byte. -/
def oidFullToString (h : List Nat) : List Char :=
  h.flatMap hexByteChars

/-- The loop of `full_oid_from_str`: parse `k` consecutive 2-char hex pairs
(each via `u8::from_str_radix`). -/
def parseHexPairs : Nat → List Char → Option (List Nat)
  | 0, _ => some []
  | k + 1, c1 :: c2 :: rest =>
    match hexCharToNat? c1, hexCharToNat? c2 with
    | some d1, some d2 => (parseHexPairs k rest).map (fun t => (d1 * 16 + d2) :: t)
    | _, _ => none
  | _ + 1, _ => none

/-- `full_oid_from_str`: `hash.get(0..40)?` then 20 byte-pairs. -/
def fullOidFromStr (hash : List Char) : Option (List Nat) :=
  if hash.length < 40 then none else parseHexPairs 20 (hash.take 40)

/-- `get_first_byte_of_oid`: mask the top 8 of the 128 bits and shift down. -/
def getFirstByteOfOid (oid : Nat) : Nat :=
  let mask : Nat := 0xff000000000000000000000000000000
  let masked := oid &&& mask
  masked >>> 120

/-- `full_slice_oid_to_u128_oid` composed with `trunc_oid_to_u128_oid`:
big-endian value of the first 16 bytes of a (≥16-byte) slice. -/
def fullSliceOidToU128Oid (full : List Nat) : Nat :=
  (full.take 16).foldl (fun acc b => acc * 256 + b) 0

/-- `PartialOid`: the left-aligned 128-bit key parsed from a hex prefix,
the shift distance and the pre-shifted comparison value. -/
structure PartialOid where
  oid : Nat
  shiftBy : Nat
  oidShifted : Nat
deriving Repr, DecidableEq

/-- `PartialOid::from_hash`: right-pad with `'0'` to 32 chars (or truncate
to 32), parse, record `shift_by = 128 - bits_set`. -/
def PartialOid.fromHash (hash : List Char) : Except String PartialOid :=
  let hashLen := hash.length
  let oidStr : List Char :=
    if hashLen < 32 then hash ++ List.replicate (32 - hashLen) '0'
    else hash.take 32
  let bitsSet : Nat := if hashLen < 32 then hashLen * 4 else 32 * 4
  match oidStrTruncatedToOid oidStr with
  | .error e => .error e
  | .ok oid =>
    let s := 128 - bitsSet
    .ok { oid := oid, shiftBy := s, oidShifted := oid >>> s }

/-- `PartialOid::matches`. -/
def PartialOid.matches (p : PartialOid) (oid : Nat) : Bool :=
  (oid >>> p.shiftBy) == p.oidShifted

/-! ## packed/delta.rs — apply_delta

`apply_delta` indexes `output[result_pos]`, `base_data[base_pos]` and
`delta_data[index]` directly; in Rust an out-of-range index there aborts with
a panic rather than returning an `io::Result` error.  The embedding therefore
distinguishes three outcomes. -/

inductive DeltaResult where
  | ok (out : List Nat)
  | err (msg : String)
  | panic
deriving Repr, DecidableEq

/-- One field of a COPY opcode: the source's
`for _ in 0..k { if opcode & 1 > 0 { acc |= delta[index] << shift; index += 1 }
opcode >>= 1; shift += 8 }` loop.  Returns `(acc, index, opcode)`;
`none` is the panic of `delta_data[index]` when `index` is out of range. -/
def copyFieldLoop (delta : List Nat) :
    Nat → Nat → Nat → Nat → Nat → Option (Nat × Nat × Nat)
  | 0, opcode, index, _, acc => some (acc, index, opcode)
  | k + 1, opcode, index, shift, acc =>
    if opcode &&& 1 > 0 then
      match delta.get? index with
      | none => none
      | some b =>
        copyFieldLoop delta k (opcode >>> 1) (index + 1) (shift + 8)
          (acc ||| (b <<< shift))
    else copyFieldLoop delta k (opcode >>> 1) index (shift + 8) acc

/-- The COPY blit: `for _ in 0..copy_len { output[result_pos] =
base_data[base_pos]; result_pos += 1; base_pos += 1 }`.  `none` is the panic
of an out-of-range read of `base_data` or write of `output`. -/
def copyBlitLoop (base : List Nat) :
    Nat → List Nat → Nat → Nat → Option (List Nat × Nat)
  | 0, output, resultPos, _ => some (output, resultPos)
  | n + 1, output, resultPos, basePos =>
    match base.get? basePos with
    | none => none
    | some b =>
      if resultPos < output.length then
        copyBlitLoop base n (output.set resultPos b) (resultPos + 1) (basePos + 1)
      else none

/-- The INSERT blit: `for _ in 0..opcode { output[result_pos] =
delta_data[index]; result_pos += 1; index += 1 }`.  Returns
`(output, resultPos, index)`; `none` is a panic. -/
def insertBlitLoop (delta : List Nat) :
    Nat → List Nat → Nat → Nat → Option (List Nat × Nat × Nat)
  | 0, output, resultPos, index => some (output, resultPos, index)
  | n + 1, output, resultPos, index =>
    match delta.get? index with
    | none => none
    | some b =>
      if resultPos < output.length then
        insertBlitLoop delta n (output.set resultPos b) (resultPos + 1) (index + 1)
      else none

/-- The `while index < delta_len` loop of `apply_delta`.  `fuel` only bounds
the iteration count; each iteration advances `index` by at least one byte, so
`delta.length + 1` iterations always suffice. -/
def applyDeltaLoop (base delta : List Nat) :
    Nat → List Nat → Nat → Nat → DeltaResult
  | 0, _, _, _ => .err "fuel exhausted"
  | fuel + 1, output, resultPos, index =>
    if index < delta.length then
      let opcode := delta.getD index 0
      let index := index + 1
      if opcode &&& 0x80 > 0 then
        match copyFieldLoop delta 4 opcode index 0 0 with
        | none => .panic
        | some (copyOffset, index, opcode) =>
          match copyFieldLoop delta 3 opcode index 0 0 with
          | none => .panic
          | some (copyLen, index, _) =>
            let copyLen := if copyLen = 0 then 1 <<< 16 else copyLen
            match copyBlitLoop base copyLen output resultPos copyOffset with
            | none => .panic
            | some (output, resultPos) =>
              applyDeltaLoop base delta fuel output resultPos index
      else if opcode > 0 then
        match insertBlitLoop delta opcode output resultPos index with
        | none => .panic
        | some (output, resultPos, index) =>
          applyDeltaLoop base delta fuel output resultPos index
      else .err "Error, opcode should not be 0"
    else .ok output

/-- `apply_delta(base_data, delta_data, output_len)`: the result buffer is
pre-sized to `output_len` zeros. -/
def applyDelta (baseData deltaData : List Nat) (outputLen : Nat) : DeltaResult :=
  applyDeltaLoop baseData deltaData (deltaData.length + 1)
    (List.replicate outputLen 0) 0 0

/-! ## packed/index.rs -/

def SHA1_SIZE : Nat := 20
def FANOUT_ENTRY_SIZE : Nat := 4
def FANOUT_LENGTH : Nat := 256
def V1_HEADER_SIZE : Nat := FANOUT_LENGTH * FANOUT_ENTRY_SIZE
def V2_HEADER_SIZE : Nat := FANOUT_ENTRY_SIZE * 2 + FANOUT_LENGTH * FANOUT_ENTRY_SIZE

inductive IDXVersion where
  | v1
  | v2
deriving Repr, DecidableEq

/-- The index-file state shared by the source's `IDXFile` and `IDXFileLight`:
the copied-out fanout table, the version, the object count and the mmapped
bytes.  (`id` and the pack handle play no role in the claims.) -/
structure IDXFile where
  fanoutTable : List Nat
  version : IDXVersion
  numObjects : Nat
  file : List Nat
deriving Repr

/-- `IDXFile::get_oid_at_index`: version-specific stride, `mmap.get` of 20
bytes (`none` when out of range), first 16 bytes as the `u128` key. -/
def IDXFile.getOidAtIndex (idx : IDXFile) (index : Nat) : Option Nat :=
  let start := match idx.version with
    | .v2 => V2_HEADER_SIZE + index * SHA1_SIZE
    | .v1 => V1_HEADER_SIZE + index * (FANOUT_ENTRY_SIZE + SHA1_SIZE) + FANOUT_ENTRY_SIZE
  (getRange idx.file start SHA1_SIZE).map fullSliceOidToU128Oid

/-- The `while start_search < end_search` binary-search loop of
`IDXFile::find_index_for`. -/
def findIndexForLoop (idx : IDXFile) (oid startSearch endSearch : Nat) :
    Except String (Option Nat) :=
  if h : startSearch < endSearch then
    match idx.getOidAtIndex ((startSearch + endSearch) / 2) with
    | none => .error "Invalid index for idx file"
    | some midId =>
      if oid < midId then findIndexForLoop idx oid startSearch ((startSearch + endSearch) / 2)
      else if midId < oid then
        findIndexForLoop idx oid ((startSearch + endSearch) / 2 + 1) endSearch
      else .ok (some ((startSearch + endSearch) / 2))
  else .ok none
termination_by endSearch - startSearch
decreasing_by
  · omega
  · omega

/-- `IDXFile::find_index_for`: binary search bounded by the fanout window of
the oid's first byte. -/
def IDXFile.findIndexFor (idx : IDXFile) (oid : Nat) : Except String (Option Nat) :=
  let firstByte := getFirstByteOfOid oid
  let startSearch := if firstByte > 0 then idx.fanoutTable.getD (firstByte - 1) 0 else 0
  let endSearch := idx.fanoutTable.getD firstByte 0
  findIndexForLoop idx oid startSearch endSearch

/-- `IDXFile::contains_oid`: discard errors, `true` only on `Ok(Some(_))`. -/
def IDXFile.containsOid (idx : IDXFile) (oid : Nat) : Bool :=
  match idx.findIndexFor oid with
  | .ok (some _) => true
  | _ => false

/-- The `for _ in 0..self.num_objects` loop of
`IDXFileLight::walk_all_oids_with_index_and_from`.  Each iteration slices
`file[start_index..start_index+20]` (a panic, modelled as `none`, when out of
range), forms the oid, invokes the callback and stops when it returns true.
The returned list collects every callback invocation `(oid, fanout_index)`. -/
def walkLoop (idx : IDXFile) (seekUp : Nat) (stop : Nat → Nat → Bool) :
    Nat → Nat → Nat → Option (List (Nat × Nat))
  | _, _, 0 => some []
  | startIndex, fanoutIndex, fuel + 1 =>
    match getRange idx.file startIndex SHA1_SIZE with
    | none => none
    | some shaBytes =>
      let oid := fullSliceOidToU128Oid shaBytes
      if stop oid fanoutIndex then some [(oid, fanoutIndex)]
      else
        match walkLoop idx seekUp stop (startIndex + seekUp) (fanoutIndex + 1) fuel with
        | none => none
        | some rest => some ((oid, fanoutIndex) :: rest)

/-- `IDXFileLight::walk_all_oids_with_index_and_from`: start at
`fanout[start_byte - 1]` (0 when the byte is 0 or absent), then walk at the
version-specific stride.  Returns the callback invocations in order. -/
def IDXFile.walkAllOidsWithIndexAndFrom (idx : IDXFile) (startByte : Option Nat)
    (stop : Nat → Nat → Bool) : Option (List (Nat × Nat)) :=
  let startFanoutIndex :=
    match startByte with
    | some firstByte => if firstByte > 0 then idx.fanoutTable.getD (firstByte - 1) 0 else 0
    | none => 0
  let startAndSeek := match idx.version with
    | .v1 => (V1_HEADER_SIZE + FANOUT_ENTRY_SIZE +
        startFanoutIndex * (FANOUT_ENTRY_SIZE + SHA1_SIZE), FANOUT_ENTRY_SIZE + SHA1_SIZE)
    | .v2 => (V2_HEADER_SIZE + startFanoutIndex * SHA1_SIZE, SHA1_SIZE)
  walkLoop idx startAndSeek.2 stop startAndSeek.1 startFanoutIndex idx.numObjects

/-- Byte offset of the digest at fanout position `p` (the common value of
the walker's running `start_index` and `get_oid_at_index`'s `start`). -/
def IDXFile.oidStartAt (idx : IDXFile) (p : Nat) : Nat :=
  match idx.version with
  | .v2 => V2_HEADER_SIZE + p * SHA1_SIZE
  | .v1 => V1_HEADER_SIZE + FANOUT_ENTRY_SIZE + p * (FANOUT_ENTRY_SIZE + SHA1_SIZE)

/-- The walker's per-entry stride (`seek_up`). -/
def IDXFile.seekUp (idx : IDXFile) : Nat :=
  match idx.version with
  | .v2 => SHA1_SIZE
  | .v1 => FANOUT_ENTRY_SIZE + SHA1_SIZE

/-- The walk performed by `LightObjectDB::find_matching_oids_packed` for one
index file: start byte is the partial oid's first byte, and the callback
(which performs the `partial_oid.matches` test on every oid it receives)
stops as soon as the found oid's first byte exceeds the partial's.  The
result is the list of `(oid, fanout_index)` pairs on which the match test is
invoked. -/
def findMatchingOidsPackedVisits (idx : IDXFile) (p : PartialOid) :
    Option (List (Nat × Nat)) :=
  let firstByte := getFirstByteOfOid p.oid
  idx.walkAllOidsWithIndexAndFrom (some firstByte)
    (fun oid _ => decide (getFirstByteOfOid oid > firstByte))

/-- The oids actually reported to the caller's callback: the visited oids
that pass the match test. -/
def findMatchingOidsPackedMatches (idx : IDXFile) (p : PartialOid) :
    Option (List Nat) :=
  (findMatchingOidsPackedVisits idx p).map
    (fun visits => (visits.map Prod.fst).filter p.matches)

/-- Well-formedness of an index file against its digest list `ds`: 256
fanout entries, `ds` readable in order, digests strictly ascending, and each
fanout entry the count of digests whose first byte is at most its position. -/
def IDXFile.wellFormed (idx : IDXFile) (ds : List Nat) : Prop :=
  idx.fanoutTable.length = 256 ∧
  ds.length = idx.numObjects ∧
  (∀ o ∈ ds, o < 2 ^ 128) ∧
  (∀ j < idx.numObjects, idx.getOidAtIndex j = some (ds.getD j 0)) ∧
  List.Pairwise (· < ·) ds ∧
  (∀ b < 256, idx.fanoutTable.getD b 0 = ds.countP (fun o => decide (getFirstByteOfOid o ≤ b)))

instance (idx : IDXFile) (ds : List Nat) : Decidable (idx.wellFormed ds) := by
  unfold IDXFile.wellFormed
  infer_instance

/-! A small concrete v2 index file with two digests (first bytes `0x10` and
`0x20`), used to instantiate the theorems about index walking and search. -/

def exampleDigest0Bytes : List Nat := 16 :: List.replicate 19 0
def exampleDigest1Bytes : List Nat := 32 :: List.replicate 19 0
def exampleOid0 : Nat := fullSliceOidToU128Oid exampleDigest0Bytes
def exampleOid1 : Nat := fullSliceOidToU128Oid exampleDigest1Bytes
def exampleDigests : List Nat := [exampleOid0, exampleOid1]

def exampleIdx : IDXFile where
  fanoutTable := List.replicate 16 0 ++ List.replicate 16 1 ++ List.replicate 224 2
  version := .v2
  numObjects := 2
  file := List.replicate 1032 0 ++ exampleDigest0Bytes ++ exampleDigest1Bytes

/-- The `PartialOid` of the 8-char hex prefix `"10000000"`: first byte
`0x10`. -/
def examplePartial : PartialOid where
  oid := 0x10000000 <<< 96
  shiftBy := 96
  oidShifted := 0x10000000

/-! ## packed/pack.rs — entry headers and the negative-offset varint -/

/-- `PackFileObjectTypeInner`. -/
inductive PackTypeInner where
  | commit
  | tree
  | blob
  | tag
  | ofsDelta
  | refDelta
deriving Repr, DecidableEq

/-- `PackFileObjectType` (the base-pointer-carrying form). -/
inductive PackObjType where
  | commit
  | tree
  | blob
  | tag
  | ofsDelta (baseStartsAt : Nat)
  | refDelta (id : List Nat)
deriving Repr, DecidableEq

/-- `TryFrom<u8> for PackFileObjectTypeInner` on the masked type byte. -/
def packTypeInnerFromByte (value : Nat) : Except String PackTypeInner :=
  if value = 0 then .error "0 is an invalid type for a packfile object"
  else if value = 0x10 then .ok .commit
  else if value = 0x20 then .ok .tree
  else if value = 0x30 then .ok .blob
  else if value = 0x40 then .ok .tag
  else if value = 0x50 then .error "5 is a reserved type, and therefore invalid"
  else if value = 0x60 then .ok .ofsDelta
  else if value = 0x70 then .ok .refDelta
  else .error "Invalid pack file object type"

/-- The `for byte in &try_parse_segment[1..]` size loop of
`get_object_type_and_len_at_index`: each byte contributes its low 7 bits at
the running shift; a clear MSB ends the loop.  Returns `(length, bytes_read)`
with `bytes_read` counting the first byte as well; `none` when the segment is
exhausted without a clear MSB. -/
def packSizeLoop : List Nat → Nat → Nat → Nat → Option (Nat × Nat)
  | [], _, _, _ => none
  | byte :: rest, length, shift, bytesRead =>
    let length := length + ((byte &&& 0x7f) <<< shift)
    if byte &&& 0x80 = 0 then some (length, bytesRead + 1)
    else packSizeLoop rest length (shift + 7) (bytesRead + 1)

/-- The first phase of `PackFile::get_object_type_and_len_at_index`: read 18
bytes at `index`, extract the type tag and decode the size varint.  Returns
the inner type, the decompressed length and `bytes_read`. -/
def packHeaderParse (file : List Nat) (index : Nat) :
    Except String (PackTypeInner × Nat × Nat) :=
  match getRange file index 18 with
  | none => .error "Failed to read packfile at index"
  | some seg =>
    match seg with
    | [] => .error "Failed to read packfile at index"
    | firstByte :: restBytes =>
      let msbIs0 := firstByte &&& 0x80 = 0
      let objectTypeByte := firstByte &&& 0x70
      match packTypeInnerFromByte objectTypeByte with
      | .error e => .error e
      | .ok objectType =>
        let length := firstByte &&& 0x0f
        if msbIs0 then .ok (objectType, length, 1)
        else
          match packSizeLoop restBytes length 4 1 with
          | none => .error "Read 18 bytes and failed to find a byte whose MSB is 0"
          | some (length, bytesRead) => .ok (objectType, length, bytesRead)

/-- The continuation loop of `find_negative_offset`:
`value += 1; value = (value << 7) + (byte & 0x7f)` per byte, ending at a
clear MSB.  `value` is a `usize`, so the Rust `value << 7` silently discards
bits 64 and above; the subsequent `+ (byte & 0x7f)` fills only the cleared
low 7 bits and never overflows.  The accumulator therefore wraps modulo
`2 ^ 64` at each step. -/
def findNegativeOffsetLoop : List Nat → Nat → Nat → Option (Nat × Nat)
  | [], _, _ => none
  | byte :: rest, value, bytesRead =>
    let value := value + 1
    let value := ((value <<< 7) % 2 ^ 64) + (byte &&& 0x7f)
    if byte &&& 0x80 = 0 then some (value, bytesRead + 1)
    else findNegativeOffsetLoop rest value (bytesRead + 1)

/-- `find_negative_offset(d)`: the biased negative-offset varint.  The
source indexes `d[0]` directly and is only ever called on an 18-byte
segment; the empty case (`none` here) would be a panic in Rust. -/
def findNegativeOffset : List Nat → Option (Nat × Nat)
  | [] => none
  | firstByte :: rest =>
    let value := firstByte &&& 0x7f
    if firstByte &&& 0x80 = 0 then some (value, 1)
    else findNegativeOffsetLoop rest value 1

/-- The claim's own wording of the biased algorithm, as a reference
decoder to compare `find_negative_offset` against:
`v = b0 & 0x7F; while the MSB is set: v = ((v + 1) << 7) | (next & 0x7F)`.
Returns the value and the number of bytes consumed. -/
def specBiasedGo (cur : Nat) (rest : List Nat) (v n : Nat) : Option (Nat × Nat) :=
  if cur &&& 0x80 = 0 then some (v, n)
  else
    match rest with
    | [] => none
    | next :: rest' => specBiasedGo next rest' (((v + 1) <<< 7) ||| (next &&& 0x7f)) (n + 1)

/-- Entry point of the claim-side biased decoder. -/
def specBiasedDecode : List Nat → Option (Nat × Nat)
  | [] => none
  | b0 :: rest => specBiasedGo b0 rest (b0 &&& 0x7f) 1

/-- `PackFile` (only the mmapped bytes matter for the header parser). -/
structure PackFile where
  file : List Nat
deriving Repr

/-- `PackFile::get_object_type_and_len_at_index`: parse type and size; for
an ofs-delta read a fresh 18-byte segment, decode the negative offset and
subtract it (error when the offset reaches before the file start); for a
ref-delta read the 20-byte base id. -/
def PackFile.getObjectTypeAndLenAtIndex (pack : PackFile) (index : Nat) :
    Except String (PackObjType × Nat × Nat) :=
  match packHeaderParse pack.file index with
  | .error e => .error e
  | .ok (objectType, length, bytesRead) =>
    match objectType with
    | .commit => .ok (.commit, length, index + bytesRead)
    | .tree => .ok (.tree, length, index + bytesRead)
    | .blob => .ok (.blob, length, index + bytesRead)
    | .tag => .ok (.tag, length, index + bytesRead)
    | .ofsDelta =>
      let desiredRangeStart := index + bytesRead
      match getRange pack.file desiredRangeStart 18 with
      | none => .error "Not enough bytes to read negative offset data from a delta offset object"
      | some negativeOffsetData =>
        match findNegativeOffset negativeOffsetData with
        | none => .error "Failed to parse negative offset data from a delta offset object"
        | some (distance, moreBytesRead) =>
          if distance > index then
            .error "Detected a offset delta object that points farther than the beginning of the file"
          else
            .ok (.ofsDelta (index - distance), length, desiredRangeStart + moreBytesRead)
    | .refDelta =>
      let startReadingAt := index + bytesRead
      match getRange pack.file startReadingAt 20 with
      | none => .error "Detected a ref delta, but failed to read an additional 20 bytes for the SHA"
      | some shaData => .ok (.refDelta shaData, length, startReadingAt + 20)

/-- A pack whose entry at offset 12 is an ofs-delta with size 0 and a
one-byte negative offset of 5. -/
def examplePack : PackFile := ⟨List.replicate 12 0 ++ [0x60, 0x05] ++ List.replicate 17 0⟩

/-- Like `examplePack` but with negative offset 127, farther than the entry
offset 12. -/
def examplePackFar : PackFile := ⟨List.replicate 12 0 ++ [0x60, 0x7f] ++ List.replicate 17 0⟩

/-- A pack whose entry at offset 12 is an ofs-delta whose negative-offset
varint spans 10 bytes: its ideal biased value is `2 ^ 64 + 5`, which the
`usize` accumulator of `find_negative_offset` wraps to `5`. -/
def examplePackWrap : PackFile :=
  ⟨List.replicate 12 0 ++
    [0x60, 128, 254, 254, 254, 254, 254, 254, 254, 255, 5] ++ List.replicate 8 0⟩

/-! ## fs_helpers.rs, state.rs and object_database/mod.rs

The filesystem is modelled as a snapshot mapping a folder path to its entry
names, or to `none` when the folder does not exist.  Paths and filenames are
byte lists (the sources build ASCII paths; `str` conversions that always
succeed on ASCII are elided).  Callbacks that mutate captured state are
modelled by threading an explicit accumulator. -/

inductive IoErrorKind where
  | notFound
  | other
deriving Repr, DecidableEq

structure IoError where
  kind : IoErrorKind
  msg : String
deriving Repr, DecidableEq

/-- A Rust `io::Result` whose computation may also abort with a panic
(an out-of-bounds slice index). -/
inductive RustResult (α : Type) where
  | ok (a : α)
  | err (e : IoError)
  | panic
deriving Repr, DecidableEq

def FileSystem : Type := List Nat → Option (List (List Nat))

/-- `fs::read_dir`: `NotFound` when the folder is absent. -/
def readDir (fs : FileSystem) (path : List Nat) : Except IoError (List (List Nat)) :=
  match fs path with
  | some entries => .ok entries
  | none => .error ⟨.notFound, "No such file or directory"⟩

/-- Entry loop shared by `search_folder_out` and
`search_folder_out_missing_ok`: run the callback on each entry in order,
stopping at its first error. -/
def searchFolderEntriesLoop (cb : σ → List Nat → Except IoError σ) :
    σ → List (List Nat) → Except IoError σ
  | s, [] => .ok s
  | s, entry :: rest =>
    match cb s entry with
    | .error e => .error e
    | .ok s' => searchFolderEntriesLoop cb s' rest

/-- `fs_helpers::search_folder_out`: a `read_dir` failure (including
`NotFound`) is returned to the caller unchanged. -/
def searchFolderOut (fs : FileSystem) (path : List Nat) (init : σ)
    (cb : σ → List Nat → Except IoError σ) : Except IoError σ :=
  match readDir fs path with
  | .error e => .error e
  | .ok entries => searchFolderEntriesLoop cb init entries

/-- `fs_helpers::search_folder_out_missing_ok`: a `NotFound` from `read_dir`
is downgraded to success over zero entries. -/
def searchFolderOutMissingOk (fs : FileSystem) (path : List Nat) (init : σ)
    (cb : σ → List Nat → Except IoError σ) : Except IoError σ :=
  match readDir fs path with
  | .error e => if e.kind = .notFound then .ok init else .error e
  | .ok entries => searchFolderEntriesLoop cb init entries

def MAX_PATH_TO_DB_LEN : Nat := 4096

/-- `main_sep_byte()` on unix. -/
def mainSepByte : Nat := 47

/-- ASCII byte of the lowercase hex digit `d < 16` (the `HEX_BYTES` table
stores, per byte value, the two ASCII digits produced this way). -/
def hexDigitAsciiByte (d : Nat) : Nat :=
  if d < 10 then 48 + d else 87 + d

/-- Entry `b` of the 256-entry `HEX_BYTES` table. -/
def hexBytesEntry (b : Nat) : List Nat :=
  [hexDigitAsciiByte (b / 16 % 16), hexDigitAsciiByte (b % 16)]

/-- Hex value of one ASCII byte, as `from_str_radix(_, 16)` reads it. -/
def hexAsciiByteVal? (c : Nat) : Option Nat :=
  if 48 ≤ c ∧ c ≤ 57 then some (c - 48)
  else if 97 ≤ c ∧ c ≤ 102 then some (c - 97 + 10)
  else if 65 ≤ c ∧ c ≤ 70 then some (c - 65 + 10)
  else none

/-- Byte-level `from_str_radix(_, 16)` accumulator loop. -/
def parseHexAsciiBytes : Nat → List Nat → Option Nat
  | acc, [] => some acc
  | acc, c :: rest =>
    match hexAsciiByteVal? c with
    | none => none
    | some d => parseHexAsciiBytes (acc * 16 + d) rest

/-- `hash_object_file_and_folder(folder, filename)`: copy `folder[0..2]` and
`filename[0..30]` into a 32-char buffer and parse it as hex.  The Rust
slicing panics when either string is shorter than sliced. -/
def hashObjectFileAndFolderB (folder file : List Nat) : RustResult Nat :=
  if folder.length < 2 ∨ file.length < 30 then .panic
  else
    match parseHexAsciiBytes 0 (folder.take 2 ++ file.take 30) with
    | some oid => .ok oid
    | none => .err ⟨.other, "invalid digit found in string"⟩

/-- `MinState` (the decompressor, pure external state, is elided). -/
structure MinState where
  pathToDbBytes : List Nat
  pathToDbBytesStart : Nat
deriving Repr

/-- `MinState::new(path)`: reject paths whose byte length is at least
`MAX_PATH_TO_DB_LEN - 60`, else copy the path into a 4096-byte buffer and
append the separator. -/
def MinState.new (path : List Nat) : Except IoError MinState :=
  let pLen := path.length
  let maxExtendBy := 60
  if pLen ≥ MAX_PATH_TO_DB_LEN - maxExtendBy then
    .error ⟨.other, "Path is too long for us to represent it without allocations"⟩
  else
    let buf := setSlice (List.replicate MAX_PATH_TO_DB_LEN 0) 0 path
    .ok { pathToDbBytes := buf.set pLen mainSepByte, pathToDbBytesStart := pLen + 1 }

/-- `State::get_static_path_str`: write `extendBy` into the buffer right
after the base path and report how far to slice. -/
def MinState.getStaticPathStr (st : MinState) (extendBy : List Nat) : Nat × List Nat :=
  (st.pathToDbBytesStart + extendBy.length,
    setSlice st.pathToDbBytes st.pathToDbBytesStart extendBy)

/-- The `<base>/<hh>` search path `MinState::iter_loose_folder` builds for a
folder byte. -/
def MinState.looseFolderSearchPath (st : MinState) (folderByte : Nat) : List Nat :=
  let r := st.getStaticPathStr (hexBytesEntry folderByte)
  r.2.take r.1

/-- The entry closure of `MinState::iter_loose_folder`: once the user
callback asks to stop, remaining entries are skipped; a filename that fails
`hash_object_file_and_folder` is skipped; the Rust slicing panic inside that
helper aborts the iteration. -/
def iterLooseFolderGo (hexStr searchPath : List Nat)
    (cb : σ → Nat → List Nat → List Nat → Bool × σ) :
    Bool → σ → List (List Nat) → RustResult σ
  | _, acc, [] => .ok acc
  | stopSearching, acc, filename :: rest =>
    if stopSearching then iterLooseFolderGo hexStr searchPath cb stopSearching acc rest
    else
      match hashObjectFileAndFolderB hexStr filename with
      | .panic => .panic
      | .err _ => iterLooseFolderGo hexStr searchPath cb stopSearching acc rest
      | .ok oid =>
        let r := cb acc oid searchPath filename
        iterLooseFolderGo hexStr searchPath cb r.1 r.2 rest

/-- `MinState::iter_loose_folder` (via `fs_helpers::search_folder_out`, so a
missing folder's `NotFound` is returned to the caller).  The callback
receives the oid, the search path and the filename and returns
`(stop, new accumulator)`. -/
def MinState.iterLooseFolder (st : MinState) (fs : FileSystem) (folderByte : Nat)
    (init : σ) (cb : σ → Nat → List Nat → List Nat → Bool × σ) : RustResult σ :=
  let hexFirstByte := hexBytesEntry folderByte
  let searchPath := st.looseFolderSearchPath folderByte
  match readDir fs searchPath with
  | .error e => .err e
  | .ok entries => iterLooseFolderGo hexFirstByte searchPath cb false init entries

/-- `LightObjectDB::find_matching_oids_loose`: walk the partial oid's first
byte folder, reporting each oid that passes the match test.  The reported
oids are returned as the accumulator. -/
def findMatchingOidsLoose (st : MinState) (fs : FileSystem) (p : PartialOid) :
    RustResult (List Nat) :=
  let firstByte := getFirstByteOfOid p.oid
  st.iterLooseFolder fs firstByte []
    (fun acc oid _ _ => if p.matches oid then (false, acc ++ [oid]) else (false, acc))

/-- `LightObjectDB` (path buffer only; see `MinState`). -/
structure LightObjectDB where
  pathToDbBytes : List Nat
  pathToDbBytesStart : Nat
deriving Repr

/-- `LightObjectDB::new(p)`: the same length guard and buffer setup as
`MinState::new`. -/
def LightObjectDB.new (p : List Nat) : Except IoError LightObjectDB :=
  let pLen := p.length
  let maxExtendBy := 60
  if pLen ≥ MAX_PATH_TO_DB_LEN - maxExtendBy then
    .error ⟨.other, "Path is too long for us to represent it without allocations"⟩
  else
    let buf := setSlice (List.replicate MAX_PATH_TO_DB_LEN 0) 0 p
    .ok { pathToDbBytes := buf.set pLen mainSepByte, pathToDbBytesStart := pLen + 1 }

def LightObjectDB.getStaticPathStr (db : LightObjectDB) (extendBy : List Nat) :
    List Nat × Nat :=
  (setSlice db.pathToDbBytes db.pathToDbBytesStart extendBy,
    db.pathToDbBytesStart + extendBy.length)

/-- The `<base>/<hh>` search path of
`LightObjectDB::get_all_loose_oids_at_folder`. -/
def LightObjectDB.looseFolderSearchPath (db : LightObjectDB) (folder : Nat) : List Nat :=
  let r := db.getStaticPathStr (hexBytesEntry folder)
  r.1.take r.2

/-- Byte-level decimal reading of `u32::from_str_radix(_, 16)` is the same
hex parse; the entry closure of `get_all_loose_oids_at_folder`: names that
are not 38 bytes long are skipped, the first 30 chars plus the folder byte
form the oid, the last 8 form the `u32` remainder, and a hex-parse failure
is an error that stops the enumeration. -/
def getAllLooseOidsAtFolderCb (folder : Nat) (acc : List (Nat × Nat))
    (filename : List Nat) : Except IoError (List (Nat × Nat)) :=
  if filename.length ≠ 38 then .ok acc
  else
    match parseHexAsciiBytes 0 (filename.take 30) with
    | none => .error ⟨.other, "invalid digit found in string"⟩
    | some oidLow =>
      let oid := oidLow + (folder <<< 120)
      match parseHexAsciiBytes 0 ((filename.drop 30).take 8) with
      | none => .error ⟨.other, "invalid digit found in string"⟩
      | some rest => .ok (acc ++ [(oid, rest)])

/-- `LightObjectDB::get_all_loose_oids_at_folder` (via
`search_folder_out_missing_ok`, so a missing folder yields zero oids). -/
def LightObjectDB.getAllLooseOidsAtFolder (db : LightObjectDB) (fs : FileSystem)
    (folder : Nat) : Except IoError (List (Nat × Nat)) :=
  searchFolderOutMissingOk fs (db.looseFolderSearchPath folder) []
    (getAllLooseOidsAtFolderCb folder)

/-- ASCII bytes of a literal. -/
def asciiBytes (s : String) : List Nat :=
  s.data.map Char.toNat

/-- `true` on `Ok`, `false` on `Err`. -/
def exceptIsOk : Except ε α → Bool
  | .ok _ => true
  | .error _ => false

/-- The state `MinState::new("objects")` builds. -/
def exampleMinState : MinState where
  pathToDbBytes :=
    (setSlice (List.replicate MAX_PATH_TO_DB_LEN 0) 0 (asciiBytes "objects")).set 7 mainSepByte
  pathToDbBytesStart := 8

/-- The database `LightObjectDB::new("objects")` builds. -/
def exampleLightDB : LightObjectDB where
  pathToDbBytes :=
    (setSlice (List.replicate MAX_PATH_TO_DB_LEN 0) 0 (asciiBytes "objects")).set 7 mainSepByte
  pathToDbBytesStart := 8

/-! ## loose/unparsed — the raw loose-object reader

`loose/unparsed/mod.rs` declares `UnparsedObjectType` (embedded below from
that source); its sibling `decode.rs`, holding the three-argument
`read_raw_object` that `LightObjectDB::get_loose_object` calls, is not part
of the source snapshot, so that reader is modelled from the spec. -/

inductive UnparsedObjectType where
  | tree
  | blob
  | commit
  | tag
deriving Repr, DecidableEq

/-- `UnparsedObjectType::from_str`. -/
def unparsedObjectTypeFromStr (s : List Nat) : Except String UnparsedObjectType :=
  if s = asciiBytes "tree" then .ok .tree
  else if s = asciiBytes "tag" then .ok .tag
  else if s = asciiBytes "commit" then .ok .commit
  else if s = asciiBytes "blob" then .ok .blob
  else .error "Failed to parse object type"

/-- Decimal ASCII parse of the header's `<size>` field. -/
def parseDecimalAsciiBytes (l : List Nat) : Option Nat :=
  if l.isEmpty then none
  else if l.all (fun c => 48 ≤ c ∧ c ≤ 57) then
    some (l.foldl (fun acc c => acc * 10 + (c - 48)) 0)
  else none

/-- Modelled from the spec: `read_raw_object` of
`loose/unparsed/decode.rs` is absent from the source snapshot.  Per §4.C the
reader decompresses up to 128 bytes into a header buffer, parses
`<type> <size>\0` (failing with a corrupt-header error when no null byte
appears within 128 bytes, the type token is unknown, or the size is not
decimal), and — given a false skip-blob-body flag — decompresses the
remaining `size` payload bytes (a short stream is an error).  The function
here receives the decompressed form of the loose file directly. -/
def readRawObjectSpec (decompressed : List Nat) (skipBlobBody : Bool) :
    Except String (UnparsedObjectType × List Nat) :=
  match (decompressed.take 128).findIdx? (fun b => b == 0) with
  | none => .error "CorruptHeader: no null byte within 128 bytes"
  | some nullIdx =>
    let header := decompressed.take nullIdx
    match header.findIdx? (fun b => b == 32) with
    | none => .error "CorruptHeader: no space in header"
    | some spIdx =>
      match unparsedObjectTypeFromStr (header.take spIdx) with
      | .error e => .error e
      | .ok objectType =>
        match parseDecimalAsciiBytes (header.drop (spIdx + 1)) with
        | none => .error "CorruptHeader: non-decimal size"
        | some size =>
          if objectType = .blob ∧ skipBlobBody then .ok (.blob, [])
          else
            let restBytes := decompressed.drop (nullIdx + 1)
            if restBytes.length < size then .error "ShortRead"
            else .ok (objectType, restBytes.take size)

/-- `LightObjectDB::get_loose_object` calls the reader with a false
skip-blob-body flag (`read_raw_object(loose_obj_path, false, decompressor)`)
on the decompressed stream of the loose file. -/
def getLooseObjectSpec (decompressed : List Nat) :
    Except String (UnparsedObjectType × List Nat) :=
  readRawObjectSpec decompressed false

/-! ## Lemmas about hex formatting and parsing -/

theorem hexCharToNat?_hexDigitChar : ∀ d < 16, hexCharToNat? (hexDigitChar d) = some d := by
  decide

theorem toHexDigits_lt (n : Nat) : ∀ d ∈ toHexDigits n, d < 16 := by
  induction n using Nat.strong_induction_on with
  | _ n ih =>
    rw [toHexDigits]
    split
    · intro d hd
      simp only [List.mem_singleton] at hd
      omega
    · intro d hd
      rw [List.mem_append] at hd
      rcases hd with h | h
      · exact ih (n / 16) (Nat.div_lt_self (by omega) (by omega)) d h
      · simp only [List.mem_singleton] at h
        subst h
        exact Nat.mod_lt _ (by omega)

theorem toHexDigits_foldl (n : Nat) :
    ∀ acc : Nat, (toHexDigits n).foldl (fun a d => a * 16 + d) acc =
      acc * 16 ^ (toHexDigits n).length + n := by
  induction n using Nat.strong_induction_on with
  | _ n ih =>
    intro acc
    rw [toHexDigits]
    split
    · simp [List.foldl]
    · rw [List.foldl_append, List.length_append,
        ih (n / 16) (Nat.div_lt_self (by omega) (by omega)) acc]
      simp only [List.foldl, List.length_singleton]
      rw [Nat.pow_succ]
      have : n / 16 * 16 + n % 16 = n := by omega
      ring_nf
      omega

theorem toHexDigits_length_le (k : Nat) :
    ∀ n, 1 ≤ k → n < 16 ^ k → (toHexDigits n).length ≤ k := by
  induction k with
  | zero => omega
  | succ k ih =>
    intro n _ hn
    rw [toHexDigits]
    split
    · simp
    · rename_i hge
      rw [List.length_append, List.length_singleton]
      have hk : 1 ≤ k := by
        by_contra hk0
        have : k = 0 := by omega
        subst this
        simp at hn
        omega
      have hdiv : n / 16 < 16 ^ k := by
        rw [Nat.div_lt_iff_lt_mul (by omega)]
        calc n < 16 ^ (k + 1) := hn
        _ = 16 ^ k * 16 := by rw [Nat.pow_succ]
      have := ih (n / 16) hk hdiv
      omega

theorem parseHexDigits_map (l : List Nat) (hl : ∀ d ∈ l, d < 16) :
    ∀ acc : Nat, parseHexDigits acc (l.map hexDigitChar) =
      some (l.foldl (fun a d => a * 16 + d) acc) := by
  induction l with
  | nil => intro acc; rfl
  | cons d rest ih =>
    intro acc
    simp only [List.map_cons, parseHexDigits, List.foldl]
    rw [hexCharToNat?_hexDigitChar d (hl d (by simp))]
    exact ih (fun x hx => hl x (by simp [hx])) (acc * 16 + d)

theorem parseHexDigits_zeros (m : Nat) (l : List Char) :
    parseHexDigits 0 (List.replicate m '0' ++ l) = parseHexDigits 0 l := by
  induction m with
  | zero => rfl
  | succ m ih =>
    rw [List.replicate_succ, List.cons_append]
    show parseHexDigits (0 * 16 + 0) _ = _
    simpa using ih

theorem hexU128ToStr_eq (n : Nat) (hn : n < 2 ^ 128) :
    hexU128ToStr n = List.replicate (32 - (formatHex n).length) '0' ++ formatHex n ∧
      (formatHex n).length ≤ 32 := by
  have hlen : (formatHex n).length ≤ 32 := by
    unfold formatHex
    rw [List.length_map]
    exact toHexDigits_length_le 32 n (by omega) (by norm_num at hn ⊢; omega)
  refine ⟨?_, hlen⟩
  by_cases h : (formatHex n).length = 32
  · simp [hexU128ToStr, h]
  · simp [hexU128ToStr, h]

/-- C9 helper: parsing the 32-char padded hex form of a 128-bit value. -/
theorem parse_hexU128ToStr (o : Nat) (ho : o < 2 ^ 128) :
    (hexU128ToStr o).length = 32 ∧ parseHexDigits 0 (hexU128ToStr o) = some o := by
  obtain ⟨heq, hlen⟩ := hexU128ToStr_eq o ho
  constructor
  · rw [heq, List.length_append, List.length_replicate]
    omega
  · rw [heq, parseHexDigits_zeros]
    unfold formatHex
    rw [parseHexDigits_map _ (toHexDigits_lt o) 0, toHexDigits_foldl]
    simp

theorem parseHexPairs_flatMap (h : List Nat) (hb : ∀ b ∈ h, b < 256) :
    parseHexPairs h.length (h.flatMap hexByteChars) = some h := by
  induction h with
  | nil => rfl
  | cons b t ih =>
    have hb256 : b < 256 := hb b (by simp)
    have hdiv : b / 16 < 16 := by omega
    have hmod : b / 16 % 16 = b / 16 := Nat.mod_eq_of_lt hdiv
    have hstep : (b :: t).flatMap hexByteChars =
        hexDigitChar (b / 16 % 16) :: hexDigitChar (b % 16) :: t.flatMap hexByteChars := by
      simp [hexByteChars]
    rw [List.length_cons, hstep]
    show (match hexCharToNat? (hexDigitChar (b / 16 % 16)),
        hexCharToNat? (hexDigitChar (b % 16)) with
      | some d1, some d2 =>
        (parseHexPairs t.length (t.flatMap hexByteChars)).map (fun r => (d1 * 16 + d2) :: r)
      | _, _ => none) = some (b :: t)
    rw [hmod, hexCharToNat?_hexDigitChar (b / 16) hdiv,
      hexCharToNat?_hexDigitChar (b % 16) (Nat.mod_lt _ (by omega)),
      ih (fun x hx => hb x (by simp [hx]))]
    show some ((b / 16 * 16 + b % 16) :: t) = some (b :: t)
    have hbv : b / 16 * 16 + b % 16 = b := by omega
    rw [hbv]

theorem length_flatMap_hexByteChars (h : List Nat) :
    (h.flatMap hexByteChars).length = 2 * h.length := by
  induction h with
  | nil => rfl
  | cons b t ih =>
    simp only [List.flatMap_cons, List.length_append, List.length_cons, List.length_nil,
      ih, hexByteChars]
    omega

/-- C9: for every 128-bit value `o`, `hash_str_to_oid (hex_u128_to_str o)`
returns `o`, and for every 20-byte `OidFull` `h`,
`full_oid_from_str (oid_full_to_string h)` returns `h`. -/
theorem c9_hex_round_trip :
    (∀ o : Nat, o < 2 ^ 128 → hashStrToOid (hexU128ToStr o) = .ok o) ∧
    (∀ h : List Nat, h.length = 20 → (∀ b ∈ h, b < 256) →
      fullOidFromStr (oidFullToString h) = some h) := by
  constructor
  · intro o ho
    obtain ⟨hlen, hparse⟩ := parse_hexU128ToStr o ho
    unfold hashStrToOid
    rw [if_neg (by omega)]
    unfold oidStrTruncatedToOid fromStrRadix16
    have htake : (hexU128ToStr o).take 32 = hexU128ToStr o := by
      rw [← hlen]
      exact List.take_length _
    rw [htake, if_neg (by rw [List.isEmpty_iff_length_eq_zero]; omega), hparse]
  · intro h hlen hb
    unfold fullOidFromStr oidFullToString
    have hl : (h.flatMap hexByteChars).length = 40 := by
      rw [length_flatMap_hexByteChars, hlen]
    rw [if_neg (by omega)]
    have htake : (h.flatMap hexByteChars).take 40 = h.flatMap hexByteChars := by
      rw [← hl]
      exact List.take_length _
    rw [htake]
    have := parseHexPairs_flatMap h hb
    rw [hlen] at this
    exact this

/-- C9 witness: the round trips at a concrete oid and a concrete 20-byte id. -/
theorem c9_hex_round_trip_witness :
    hashStrToOid (hexU128ToStr 0xdeadbeef) = .ok 0xdeadbeef ∧
    fullOidFromStr (oidFullToString (206 :: List.replicate 19 1)) =
      some (206 :: List.replicate 19 1) :=
  ⟨c9_hex_round_trip.1 0xdeadbeef (by norm_num),
   c9_hex_round_trip.2 (206 :: List.replicate 19 1) (by decide) (by decide)⟩

/-! ## C4 — PartialOid matching -/

theorem parseHexDigits_isSome (l : List Char) (hl : ∀ c ∈ l, (hexCharToNat? c).isSome) :
    ∀ acc : Nat, (parseHexDigits acc l).isSome := by
  induction l with
  | nil => intro acc; rfl
  | cons c rest ih =>
    intro acc
    have := hl c (by simp)
    simp only [parseHexDigits]
    cases hc : hexCharToNat? c with
    | none => rw [hc] at this; simp at this
    | some d => exact ih (fun x hx => hl x (by simp [hx])) (acc * 16 + d)

/-- C4: a `PartialOid` built by `from_hash` from `k ≤ 32` valid hex chars
matches exactly the oids whose top `4k` bits agree with its own. -/
theorem c4_partial_oid_matches (s : List Char)
    (hhex : ∀ c ∈ s, (hexCharToNat? c).isSome)
    (h1 : 1 ≤ s.length) (h2 : s.length ≤ 32) :
    ∃ p : PartialOid, PartialOid.fromHash s = .ok p ∧
      p.shiftBy = 128 - 4 * s.length ∧
      ∀ oid : Nat, (p.matches oid = true ↔
        oid >>> (128 - 4 * s.length) = p.oid >>> (128 - 4 * s.length)) := by
  unfold PartialOid.fromHash
  set padded : List Char :=
    if s.length < 32 then s ++ List.replicate (32 - s.length) '0' else s.take 32 with hpadded
  have hpadhex : ∀ c ∈ padded, (hexCharToNat? c).isSome := by
    intro c hc
    rw [hpadded] at hc
    split at hc
    · rw [List.mem_append] at hc
      rcases hc with h | h
      · exact hhex c h
      · rw [List.eq_of_mem_replicate h]
        rfl
    · exact hhex c (List.mem_of_mem_take hc)
  have hpadne : ¬ padded.isEmpty := by
    rw [hpadded]
    split
    · rename_i hlt
      rw [List.isEmpty_iff_length_eq_zero, List.length_append]
      omega
    · rename_i hge
      rw [List.isEmpty_iff_length_eq_zero, List.length_take]
      omega
  have hsome := parseHexDigits_isSome padded hpadhex 0
  obtain ⟨n, hn⟩ := Option.isSome_iff_exists.mp hsome
  have hbits : (if s.length < 32 then s.length * 4 else 32 * 4) = 4 * s.length := by
    split <;> omega
  have hparse : oidStrTruncatedToOid padded = .ok n := by
    unfold oidStrTruncatedToOid fromStrRadix16
    rw [if_neg hpadne, hn]
  have hok : PartialOid.fromHash s =
      .ok ⟨n, 128 - 4 * s.length, n >>> (128 - 4 * s.length)⟩ := by
    show (match oidStrTruncatedToOid
        (if s.length < 32 then s ++ List.replicate (32 - s.length) '0' else s.take 32) with
      | Except.error e => Except.error e
      | Except.ok oid =>
        Except.ok (PartialOid.mk oid
          (128 - (if s.length < 32 then s.length * 4 else 32 * 4))
          (oid >>> (128 - (if s.length < 32 then s.length * 4 else 32 * 4))))) =
      Except.ok (PartialOid.mk n (128 - 4 * s.length) (n >>> (128 - 4 * s.length)))
    rw [← hpadded, hparse, hbits]
  refine ⟨_, hok, rfl, ?_⟩
  intro oid
  simp only [PartialOid.matches, beq_iff_eq]

/-- C4 witness: `from_hash "abcd"` (4 hex chars, 16 bits set) and a matching
check at a concrete oid. -/
theorem c4_partial_oid_matches_witness :
    ∃ p : PartialOid, PartialOid.fromHash ['a', 'b', 'c', 'd'] = .ok p ∧
      p.shiftBy = 128 - 4 * 4 ∧
      ∀ oid : Nat, (p.matches oid = true ↔
        oid >>> (128 - 4 * 4) = p.oid >>> (128 - 4 * 4)) :=
  c4_partial_oid_matches ['a', 'b', 'c', 'd'] (by decide) (by decide) (by decide)

/-! ## C1 — apply_delta error behaviour -/

/-- The INSERT blit panics (returns `none`) whenever its `n` steps would
read past the end of the delta stream or write past the end of the output
buffer: the first out-of-range access aborts. -/
theorem insertBlitLoop_panic (delta : List Nat) :
    ∀ (n : Nat) (output : List Nat) (resultPos index : Nat),
      0 < n →
      (delta.length < index + n ∨ output.length < resultPos + n) →
      insertBlitLoop delta n output resultPos index = none := by
  intro n
  induction n with
  | zero => intro output resultPos index h _; omega
  | succ n ih =>
    intro output resultPos index _ hcond
    by_cases hidx : index < delta.length
    · obtain ⟨b, hb⟩ := Option.isSome_iff_exists.mp (by
        rw [List.get?_eq_getElem?, List.getElem?_eq_getElem hidx]; rfl :
        (delta.get? index).isSome)
      simp only [insertBlitLoop, hb]
      by_cases hr : resultPos < output.length
      · rw [if_pos hr]
        exact ih _ (resultPos + 1) (index + 1) (by omega)
          (by rw [List.length_set]; omega)
      · rw [if_neg hr]
    · have hnone : delta.get? index = none := by
        rw [List.get?_eq_getElem?, List.getElem?_eq_none]
        omega
      simp only [insertBlitLoop, hnone]

/-- The COPY blit panics (returns `none`) whenever its `n` steps would read
past the end of the base buffer or write past the end of the output
buffer. -/
theorem copyBlitLoop_panic (base : List Nat) :
    ∀ (n : Nat) (output : List Nat) (resultPos basePos : Nat),
      0 < n →
      (base.length < basePos + n ∨ output.length < resultPos + n) →
      copyBlitLoop base n output resultPos basePos = none := by
  intro n
  induction n with
  | zero => intro output resultPos basePos h _; omega
  | succ n ih =>
    intro output resultPos basePos _ hcond
    by_cases hb : basePos < base.length
    · obtain ⟨v, hv⟩ := Option.isSome_iff_exists.mp (by
        rw [List.get?_eq_getElem?, List.getElem?_eq_getElem hb]; rfl :
        (base.get? basePos).isSome)
      simp only [copyBlitLoop, hv]
      by_cases hr : resultPos < output.length
      · rw [if_pos hr]
        exact ih _ (resultPos + 1) (basePos + 1) (by omega)
          (by rw [List.length_set]; omega)
      · rw [if_neg hr]
    · have hnone : base.get? basePos = none := by
        rw [List.get?_eq_getElem?, List.getElem?_eq_none]
        omega
      simp only [copyBlitLoop, hnone]

/-- A successful COPY field parse never moves `index` backwards, and keeps
it within the delta stream (every consumed byte was read in range). -/
theorem copyFieldLoop_some (delta : List Nat) :
    ∀ (k opcode index shift acc v index' opcode' : Nat),
      copyFieldLoop delta k opcode index shift acc = some (v, index', opcode') →
      index ≤ index' ∧ (index ≤ delta.length → index' ≤ delta.length) := by
  intro k
  induction k with
  | zero =>
    intro opcode index shift acc v index' opcode' h
    simp only [copyFieldLoop, Option.some.injEq, Prod.mk.injEq] at h
    obtain ⟨-, h2, -⟩ := h
    omega
  | succ k ih =>
    intro opcode index shift acc v index' opcode' h
    simp only [copyFieldLoop] at h
    by_cases hbit : opcode &&& 1 > 0
    · rw [if_pos hbit] at h
      by_cases hidx : index < delta.length
      · obtain ⟨b, hb⟩ := Option.isSome_iff_exists.mp (by
          rw [List.get?_eq_getElem?, List.getElem?_eq_getElem hidx]; rfl :
          (delta.get? index).isSome)
        rw [hb] at h
        obtain ⟨h1, h2⟩ := ih _ _ _ _ _ _ _ h
        exact ⟨by omega, fun _ => h2 (by omega)⟩
      · have hnone : delta.get? index = none := by
          rw [List.get?_eq_getElem?, List.getElem?_eq_none]
          omega
        rw [hnone] at h
        exact absurd h (by simp)
    · rw [if_neg hbit] at h
      exact ih _ _ _ _ _ _ _ h

/-- A successful INSERT blit advances `index` by exactly `n`, and (when it
read at least one byte) stays within the delta stream. -/
theorem insertBlitLoop_some (delta : List Nat) :
    ∀ (n : Nat) (output : List Nat) (resultPos index : Nat)
      (out' : List Nat) (rp' index' : Nat),
      insertBlitLoop delta n output resultPos index = some (out', rp', index') →
      index' = index + n ∧ (0 < n → index + n ≤ delta.length) := by
  intro n
  induction n with
  | zero =>
    intro output resultPos index out' rp' index' h
    simp only [insertBlitLoop, Option.some.injEq, Prod.mk.injEq] at h
    obtain ⟨-, -, h3⟩ := h
    omega
  | succ n ih =>
    intro output resultPos index out' rp' index' h
    by_cases hidx : index < delta.length
    · obtain ⟨b, hb⟩ := Option.isSome_iff_exists.mp (by
        rw [List.get?_eq_getElem?, List.getElem?_eq_getElem hidx]; rfl :
        (delta.get? index).isSome)
      simp only [insertBlitLoop, hb] at h
      by_cases hr : resultPos < output.length
      · rw [if_pos hr] at h
        obtain ⟨h1, h2⟩ := ih _ _ _ _ _ _ h
        refine ⟨by omega, fun _ => ?_⟩
        by_cases hn : 0 < n
        · have := h2 hn
          omega
        · omega
      · rw [if_neg hr] at h
        exact absurd h (by simp)
    · have hnone : delta.get? index = none := by
        rw [List.get?_eq_getElem?, List.getElem?_eq_none]
        omega
      simp only [insertBlitLoop, hnone] at h
      exact absurd h (by simp)

/-- One-step unfolding of the `apply_delta` loop at positive fuel. -/
theorem applyDeltaLoop_succ (base delta : List Nat) (fuel : Nat)
    (output : List Nat) (resultPos index : Nat) :
    applyDeltaLoop base delta (fuel + 1) output resultPos index =
      if index < delta.length then
        if delta.getD index 0 &&& 0x80 > 0 then
          match copyFieldLoop delta 4 (delta.getD index 0) (index + 1) 0 0 with
          | none => .panic
          | some (copyOffset, index2, opcode2) =>
            match copyFieldLoop delta 3 opcode2 index2 0 0 with
            | none => .panic
            | some (copyLen, index3, _) =>
              match copyBlitLoop base (if copyLen = 0 then 1 <<< 16 else copyLen)
                  output resultPos copyOffset with
              | none => .panic
              | some (output', resultPos') =>
                applyDeltaLoop base delta fuel output' resultPos' index3
        else if delta.getD index 0 > 0 then
          match insertBlitLoop delta (delta.getD index 0) output resultPos (index + 1) with
          | none => .panic
          | some (output', resultPos', index2) =>
            applyDeltaLoop base delta fuel output' resultPos' index2
        else .err "Error, opcode should not be 0"
      else .ok output := rfl

/-- Every `.err` outcome of the `apply_delta` loop carries the opcode-0
message and exhibits a zero byte at or after the current position of the
delta stream; the fuel bound `delta.length - index < fuel` rules out the
fuel-exhaustion artefact of the embedding (each iteration consumes at least
one delta byte). -/
theorem applyDeltaLoop_err (base delta : List Nat) :
    ∀ (fuel : Nat) (output : List Nat) (resultPos index : Nat) (msg : String),
      index ≤ delta.length → delta.length - index < fuel →
      applyDeltaLoop base delta fuel output resultPos index = .err msg →
      msg = "Error, opcode should not be 0" ∧
        ∃ j, index ≤ j ∧ j < delta.length ∧ delta.getD j 0 = 0 := by
  intro fuel
  induction fuel with
  | zero => intro _ _ _ _ _ hfuel _; omega
  | succ fuel ih =>
    intro output resultPos index msg hle hfuel hrun
    rw [applyDeltaLoop_succ] at hrun
    by_cases hidx : index < delta.length
    · rw [if_pos hidx] at hrun
      by_cases hmsb : delta.getD index 0 &&& 0x80 > 0
      · rw [if_pos hmsb] at hrun
        cases hf1 : copyFieldLoop delta 4 (delta.getD index 0) (index + 1) 0 0 with
        | none =>
          simp only [hf1] at hrun
          exact absurd hrun (by simp)
        | some t1 =>
          obtain ⟨copyOffset, index2, opcode2⟩ := t1
          simp only [hf1] at hrun
          cases hf2 : copyFieldLoop delta 3 opcode2 index2 0 0 with
          | none =>
            simp only [hf2] at hrun
            exact absurd hrun (by simp)
          | some t2 =>
            obtain ⟨copyLen, index3, opcode3⟩ := t2
            simp only [hf2] at hrun
            cases hf3 : copyBlitLoop base (if copyLen = 0 then 1 <<< 16 else copyLen)
                output resultPos copyOffset with
            | none =>
              simp only [hf3] at hrun
              exact absurd hrun (by simp)
            | some t3 =>
              obtain ⟨output', resultPos'⟩ := t3
              simp only [hf3] at hrun
              obtain ⟨ha1, ha2⟩ := copyFieldLoop_some delta 4 _ _ _ _ _ _ _ hf1
              obtain ⟨hb1, hb2⟩ := copyFieldLoop_some delta 3 _ _ _ _ _ _ _ hf2
              have hi2 : index2 ≤ delta.length := ha2 (by omega)
              have hi3 : index3 ≤ delta.length := hb2 hi2
              obtain ⟨hmsg, j, hj1, hj2, hj3⟩ :=
                ih output' resultPos' index3 msg hi3 (by omega) hrun
              exact ⟨hmsg, j, by omega, hj2, hj3⟩
      · rw [if_neg hmsb] at hrun
        by_cases hpos : delta.getD index 0 > 0
        · rw [if_pos hpos] at hrun
          cases hins : insertBlitLoop delta (delta.getD index 0)
              output resultPos (index + 1) with
          | none =>
            simp only [hins] at hrun
            exact absurd hrun (by simp)
          | some t =>
            obtain ⟨output', resultPos', index2⟩ := t
            simp only [hins] at hrun
            obtain ⟨hi_eq, hib⟩ := insertBlitLoop_some delta _ _ _ _ _ _ _ hins
            have hi2 : index2 ≤ delta.length := by
              have := hib hpos
              omega
            obtain ⟨hmsg, j, hj1, hj2, hj3⟩ :=
              ih output' resultPos' index2 msg hi2 (by omega) hrun
            exact ⟨hmsg, j, by omega, hj2, hj3⟩
        · rw [if_neg hpos] at hrun
          simp only [DeltaResult.err.injEq] at hrun
          exact ⟨hrun.symm, index, le_refl _, hidx, by omega⟩
    · rw [if_neg hidx] at hrun
      simp at hrun

/-- C1 counterexample: an INSERT that would write past the declared result
size, and a COPY that addresses a byte past the end of the base buffer, both
abort with a panic — not with an `io::Result` error as the claim states. -/
theorem c1_apply_delta_counterexample :
    applyDelta [] [1, 97] 0 = .panic ∧ applyDelta [] [144, 1] 1 = .panic := by
  constructor <;> rfl

/-- C1 (amended): `apply_delta` produces an `io::Result` error exactly for a
zero opcode byte — every error run carries the message
`"Error, opcode should not be 0"` together with a zero byte in the remaining
stream, and a zero opcode at the current position errs immediately from any
loop state — while an INSERT that would read past the delta end or write
past the declared result size, and a COPY whose decoded source range leaves
the base buffer or whose write passes the declared result size, abort with
an index-out-of-bounds panic instead of returning an error. -/
theorem c1_apply_delta_amended (base delta : List Nat) (outLen : Nat) :
    (∀ msg : String, applyDelta base delta outLen = .err msg →
      msg = "Error, opcode should not be 0" ∧
        ∃ j, j < delta.length ∧ delta.getD j 0 = 0) ∧
    (∀ (fuel : Nat) (output : List Nat) (resultPos index : Nat),
      index < delta.length → delta.getD index 0 = 0 →
      applyDeltaLoop base delta (fuel + 1) output resultPos index =
        .err "Error, opcode should not be 0") ∧
    (∀ (fuel : Nat) (output : List Nat) (resultPos index : Nat),
      index < delta.length → delta.getD index 0 &&& 0x80 = 0 →
      0 < delta.getD index 0 →
      (delta.length < index + 1 + delta.getD index 0 ∨
        output.length < resultPos + delta.getD index 0) →
      applyDeltaLoop base delta (fuel + 1) output resultPos index = .panic) ∧
    (∀ (fuel : Nat) (output : List Nat)
      (resultPos index copyOffset copyLen index2 index3 opcode2 opcode3 : Nat),
      index < delta.length → delta.getD index 0 &&& 0x80 > 0 →
      copyFieldLoop delta 4 (delta.getD index 0) (index + 1) 0 0 =
        some (copyOffset, index2, opcode2) →
      copyFieldLoop delta 3 opcode2 index2 0 0 = some (copyLen, index3, opcode3) →
      (base.length < copyOffset + (if copyLen = 0 then 1 <<< 16 else copyLen) ∨
        output.length < resultPos + (if copyLen = 0 then 1 <<< 16 else copyLen)) →
      applyDeltaLoop base delta (fuel + 1) output resultPos index = .panic) := by
  refine ⟨?_, ?_, ?_, ?_⟩
  · intro msg h
    have := applyDeltaLoop_err base delta (delta.length + 1)
      (List.replicate outLen 0) 0 0 msg (Nat.zero_le _) (by omega) h
    obtain ⟨hmsg, j, _, hj2, hj3⟩ := this
    exact ⟨hmsg, j, hj2, hj3⟩
  · intro fuel output resultPos index hidx h0
    rw [applyDeltaLoop_succ, if_pos hidx, h0]
    simp
  · intro fuel output resultPos index hidx hmsb hpos hcond
    rw [applyDeltaLoop_succ, if_pos hidx, if_neg (by omega), if_pos hpos]
    rw [insertBlitLoop_panic delta _ output resultPos (index + 1) hpos (by omega)]
  · intro fuel output resultPos index copyOffset copyLen index2 index3
      opcode2 opcode3 hidx hmsb hf1 hf2 hcond
    rw [applyDeltaLoop_succ, if_pos hidx, if_pos hmsb]
    simp only [hf1, hf2]
    have hlen : 0 < (if copyLen = 0 then 1 <<< 16 else copyLen) := by
      by_cases h : copyLen = 0
      · rw [if_pos h]; decide
      · rw [if_neg h]; omega
    rw [copyBlitLoop_panic base _ output resultPos copyOffset hlen hcond]

/-- C1 witness: the amended theorem applied at concrete inputs for all four
conjuncts. -/
theorem c1_apply_delta_amended_witness :
    ("Error, opcode should not be 0" = "Error, opcode should not be 0" ∧
      ∃ j, j < ([0] : List Nat).length ∧ ([0] : List Nat).getD j 0 = 0) ∧
    applyDeltaLoop [5] [0, 7] 1 [9] 0 0 = .err "Error, opcode should not be 0" ∧
    applyDeltaLoop [] [2, 97] 1 [9] 0 0 = .panic ∧
    applyDeltaLoop [97] [145, 0, 2] 1 [9, 9] 0 0 = .panic :=
  ⟨(c1_apply_delta_amended [5] [0] 2).1 _ (by rfl),
   (c1_apply_delta_amended [5] [0, 7] 0).2.1 0 [9] 0 0 (by decide) (by decide),
   (c1_apply_delta_amended [] [2, 97] 0).2.2.1 0 [9] 0 0 (by decide) (by decide)
     (by decide) (Or.inl (by decide)),
   (c1_apply_delta_amended [97] [145, 0, 2] 0).2.2.2 0 [9, 9] 0 0 0 2 2 3 9 1
     (by decide) (by decide) (by decide) (by decide) (Or.inl (by decide))⟩

/-! ## Bit-level facts about getFirstByteOfOid -/

theorem natShiftRightAndDistrib (m n k : Nat) : (m &&& n) >>> k = m >>> k &&& n >>> k := by
  apply Nat.eq_of_testBit_eq
  intro i
  simp [Nat.testBit_shiftRight, Nat.testBit_and, Nat.add_comm]

theorem getFirstByteOfOid_le_255 (o : Nat) : getFirstByteOfOid o ≤ 255 := by
  unfold getFirstByteOfOid
  have h1 : o &&& 0xff000000000000000000000000000000 ≤
      0xff000000000000000000000000000000 := Nat.and_le_right
  have h2 : (o &&& 0xff000000000000000000000000000000) >>> 120 ≤
      (0xff000000000000000000000000000000 : Nat) >>> 120 := by
    rw [Nat.shiftRight_eq_div_pow, Nat.shiftRight_eq_div_pow]
    exact Nat.div_le_div_right h1
  refine le_trans h2 ?_
  rw [Nat.shiftRight_eq_div_pow]

theorem getFirstByteOfOid_eq_shift (o : Nat) (h : o < 2 ^ 128) :
    getFirstByteOfOid o = o >>> 120 := by
  unfold getFirstByteOfOid
  rw [natShiftRightAndDistrib]
  have hmask : (0xff000000000000000000000000000000 : Nat) >>> 120 = 255 := by
    rw [Nat.shiftRight_eq_div_pow]
  rw [hmask]
  have h255 : (255 : Nat) = 2 ^ 8 - 1 := by norm_num
  rw [h255, Nat.and_pow_two_sub_one_eq_mod]
  apply Nat.mod_eq_of_lt
  rw [Nat.shiftRight_eq_div_pow]
  apply Nat.div_lt_of_lt_mul
  calc o < 2 ^ 128 := h
  _ = 2 ^ 120 * 2 ^ 8 := by norm_num

theorem getFirstByteOfOid_mono {a b : Nat} (hab : a ≤ b) (hb : b < 2 ^ 128) :
    getFirstByteOfOid a ≤ getFirstByteOfOid b := by
  rw [getFirstByteOfOid_eq_shift a (lt_of_le_of_lt hab hb), getFirstByteOfOid_eq_shift b hb,
    Nat.shiftRight_eq_div_pow, Nat.shiftRight_eq_div_pow]
  exact Nat.div_le_div_right hab

/-! ## Consequences of index well-formedness -/

theorem wellFormed_sorted_getD {idx : IDXFile} {ds : List Nat}
    (hwf : idx.wellFormed ds) {i j : Nat} (hij : i < j) (hj : j < idx.numObjects) :
    ds.getD i 0 < ds.getD j 0 := by
  have hdl := hwf.2.1
  have hsort := hwf.2.2.2.2.1
  have hi2 : i < ds.length := by omega
  have hj2 : j < ds.length := by omega
  rw [List.getD_eq_getElem ds 0 hi2, List.getD_eq_getElem ds 0 hj2]
  have := List.pairwise_iff_get.mp hsort ⟨i, hi2⟩ ⟨j, hj2⟩ (Fin.mk_lt_mk.mpr hij)
  simpa using this

theorem wellFormed_getD_lt {idx : IDXFile} {ds : List Nat}
    (hwf : idx.wellFormed ds) {j : Nat} (hj : j < idx.numObjects) :
    ds.getD j 0 < 2 ^ 128 := by
  have hdl := hwf.2.1
  have hj2 : j < ds.length := by omega
  refine hwf.2.2.1 _ ?_
  rw [List.getD_eq_getElem ds 0 hj2]
  exact List.getElem_mem hj2

theorem wellFormed_fb_mono {idx : IDXFile} {ds : List Nat}
    (hwf : idx.wellFormed ds) {i j : Nat} (hij : i ≤ j) (hj : j < idx.numObjects) :
    getFirstByteOfOid (ds.getD i 0) ≤ getFirstByteOfOid (ds.getD j 0) := by
  rcases Nat.eq_or_lt_of_le hij with heq | hlt
  · rw [heq]
  · exact getFirstByteOfOid_mono (le_of_lt (wellFormed_sorted_getD hwf hlt hj))
      (wellFormed_getD_lt hwf hj)

/-- The fanout window characterization: position `j` holds a digest whose
first byte is at most `b` exactly when `j < fanout[b]`. -/
theorem wellFormed_pos_iff {idx : IDXFile} {ds : List Nat}
    (hwf : idx.wellFormed ds) {b j : Nat} (hb : b < 256) (hj : j < idx.numObjects) :
    (getFirstByteOfOid (ds.getD j 0) ≤ b ↔ j < idx.fanoutTable.getD b 0) := by
  have hdl := hwf.2.1
  have hcount := hwf.2.2.2.2.2
  rw [hcount b hb]
  constructor
  · intro hfb
    have htd : ds.take (j + 1) ++ ds.drop (j + 1) = ds := List.take_append_drop (j + 1) ds
    have hsplit : ds.countP (fun o => decide (getFirstByteOfOid o ≤ b)) =
        (ds.take (j + 1)).countP (fun o => decide (getFirstByteOfOid o ≤ b)) +
        (ds.drop (j + 1)).countP (fun o => decide (getFirstByteOfOid o ≤ b)) := by
      conv_lhs => rw [← htd]
      rw [List.countP_append]
    have hall : ∀ a ∈ ds.take (j + 1), (fun o => decide (getFirstByteOfOid o ≤ b)) a := by
      intro a ha
      rw [List.mem_iff_getElem] at ha
      obtain ⟨i, hi, hia⟩ := ha
      rw [List.getElem_take] at hia
      have hij : i ≤ j := by
        rw [List.length_take] at hi
        omega
      have hilen : i < ds.length := by
        rw [List.length_take] at hi
        omega
      rw [← hia]
      have hgd : ds[i] = ds.getD i 0 := (List.getD_eq_getElem ds 0 hilen).symm
      rw [hgd]
      simp only [decide_eq_true_eq]
      exact le_trans (wellFormed_fb_mono hwf hij hj) hfb
    have hlen1 : (ds.take (j + 1)).length = j + 1 := by
      rw [List.length_take]
      omega
    have hcnt : (ds.take (j + 1)).countP (fun o => decide (getFirstByteOfOid o ≤ b)) = j + 1 := by
      rw [List.countP_eq_length.mpr hall, hlen1]
    omega
  · intro hjc
    by_contra hfb
    have hsplit : ds.countP (fun o => decide (getFirstByteOfOid o ≤ b)) =
        (ds.take j).countP (fun o => decide (getFirstByteOfOid o ≤ b)) +
        (ds.drop j).countP (fun o => decide (getFirstByteOfOid o ≤ b)) := by
      conv_lhs => rw [← List.take_append_drop j ds]
      rw [List.countP_append]
    have hzero : (ds.drop j).countP (fun o => decide (getFirstByteOfOid o ≤ b)) = 0 := by
      rw [List.countP_eq_zero]
      intro a ha
      rw [List.mem_iff_getElem] at ha
      obtain ⟨i, hi, hia⟩ := ha
      rw [List.getElem_drop] at hia
      have hilen : j + i < ds.length := by
        rw [List.length_drop] at hi
        omega
      rw [← hia]
      have hgd : ds[j + i] = ds.getD (j + i) 0 := (List.getD_eq_getElem ds 0 hilen).symm
      rw [hgd]
      simp only [decide_eq_true_eq, not_le]
      have hmono : getFirstByteOfOid (ds.getD j 0) ≤ getFirstByteOfOid (ds.getD (j + i) 0) :=
        wellFormed_fb_mono hwf (by omega) (by omega)
      omega
    have hle : (ds.take j).countP (fun o => decide (getFirstByteOfOid o ≤ b)) ≤ j :=
      le_trans (List.countP_le_length _) (by rw [List.length_take]; omega)
    omega

theorem wellFormed_fanout_le_num {idx : IDXFile} {ds : List Nat}
    (hwf : idx.wellFormed ds) {b : Nat} (hb : b < 256) :
    idx.fanoutTable.getD b 0 ≤ idx.numObjects := by
  rw [hwf.2.2.2.2.2 b hb]
  refine le_trans (List.countP_le_length _) ?_
  rw [hwf.2.1]

theorem wellFormed_fanout_mono {idx : IDXFile} {ds : List Nat}
    (hwf : idx.wellFormed ds) {a b : Nat} (hab : a ≤ b) (hb : b < 256) :
    idx.fanoutTable.getD a 0 ≤ idx.fanoutTable.getD b 0 := by
  rw [hwf.2.2.2.2.2 a (by omega), hwf.2.2.2.2.2 b hb]
  refine List.countP_mono_left ?_
  intro o _ h
  simp only [decide_eq_true_eq] at h ⊢
  omega

/-! ## Binary search (C3) -/

theorem findIndexForLoop_finds {idx : IDXFile} {ds : List Nat}
    (hwf : idx.wellFormed ds) (oid j : Nat) (hj : j < idx.numObjects)
    (hoid : ds.getD j 0 = oid) :
    ∀ (n startS endS : Nat), endS - startS ≤ n → endS ≤ idx.numObjects →
      startS ≤ j → j < endS →
      ∃ i, findIndexForLoop idx oid startS endS = .ok (some i) ∧
        startS ≤ i ∧ i < endS ∧ ds.getD i 0 = oid := by
  intro n
  induction n with
  | zero => intro s e hn _ hs hj2; omega
  | succ n ih =>
    intro s e hn he hs hj2
    have hse : s < e := by omega
    rw [findIndexForLoop]
    rw [dif_pos hse]
    have hmlt : (s + e) / 2 < e := by omega
    have hmge : s ≤ (s + e) / 2 := by omega
    have hmnum : (s + e) / 2 < idx.numObjects := by omega
    simp only [hwf.2.2.2.1 _ hmnum]
    by_cases h1 : oid < ds.getD ((s + e) / 2) 0
    · rw [if_pos h1]
      have hjm : j < (s + e) / 2 := by
        by_contra hge
        push_neg at hge
        rcases Nat.eq_or_lt_of_le hge with heq | hlt2
        · rw [heq, hoid] at h1
          omega
        · have := wellFormed_sorted_getD hwf hlt2 hj
          rw [hoid] at this
          omega
      obtain ⟨i, hi1, hi2, hi3, hi4⟩ := ih s ((s + e) / 2) (by omega) (by omega) hs hjm
      exact ⟨i, hi1, hi2, by omega, hi4⟩
    · rw [if_neg h1]
      by_cases h2 : ds.getD ((s + e) / 2) 0 < oid
      · rw [if_pos h2]
        have hjm : (s + e) / 2 < j := by
          by_contra hge
          push_neg at hge
          rcases Nat.eq_or_lt_of_le hge with heq | hlt2
          · rw [← heq, hoid] at h2
            omega
          · have := wellFormed_sorted_getD hwf hlt2 hmnum
            rw [hoid] at this
            omega
        obtain ⟨i, hi1, hi2, hi3, hi4⟩ := ih ((s + e) / 2 + 1) e (by omega) he (by omega) hj2
        exact ⟨i, hi1, by omega, hi3, hi4⟩
      · rw [if_neg h2]
        exact ⟨(s + e) / 2, rfl, hmge, hmlt, by omega⟩

theorem findIndexForLoop_none {idx : IDXFile} {ds : List Nat}
    (hwf : idx.wellFormed ds) (oid : Nat)
    (habs : ∀ j, j < idx.numObjects → ds.getD j 0 ≠ oid) :
    ∀ (n startS endS : Nat), endS - startS ≤ n → endS ≤ idx.numObjects →
      findIndexForLoop idx oid startS endS = .ok none := by
  intro n
  induction n with
  | zero =>
    intro s e hn he
    rw [findIndexForLoop, dif_neg (by omega)]
  | succ n ih =>
    intro s e hn he
    by_cases hse : s < e
    · rw [findIndexForLoop, dif_pos hse]
      have hmnum : (s + e) / 2 < idx.numObjects := by omega
      simp only [hwf.2.2.2.1 _ hmnum]
      by_cases h1 : oid < ds.getD ((s + e) / 2) 0
      · rw [if_pos h1]
        exact ih s ((s + e) / 2) (by omega) (by omega)
      · rw [if_neg h1]
        by_cases h2 : ds.getD ((s + e) / 2) 0 < oid
        · rw [if_pos h2]
          exact ih ((s + e) / 2 + 1) e (by omega) he
        · exfalso
          exact habs _ hmnum (by omega)
    · rw [findIndexForLoop, dif_neg hse]

/-- C3: on a well-formed index, `find_index_for` returns `Ok(Some i)` with
`get_oid_at_index i = oid` and `i` inside the fanout window
`[fanout[b-1], fanout[b])` of the oid's first byte when the oid is present,
and `Ok(None)` when it is absent. -/
theorem c3_find_index_for (idx : IDXFile) (ds : List Nat)
    (hwf : idx.wellFormed ds) (oid : Nat) :
    ((∃ j, j < idx.numObjects ∧ ds.getD j 0 = oid) →
      ∃ i, idx.findIndexFor oid = .ok (some i) ∧ idx.getOidAtIndex i = some oid ∧
        (0 < getFirstByteOfOid oid →
          idx.fanoutTable.getD (getFirstByteOfOid oid - 1) 0 ≤ i) ∧
        i < idx.fanoutTable.getD (getFirstByteOfOid oid) 0) ∧
    ((∀ j, j < idx.numObjects → ds.getD j 0 ≠ oid) →
      idx.findIndexFor oid = .ok none) := by
  have hb : getFirstByteOfOid oid < 256 := by
    have := getFirstByteOfOid_le_255 oid
    omega
  have hend : idx.fanoutTable.getD (getFirstByteOfOid oid) 0 ≤ idx.numObjects :=
    wellFormed_fanout_le_num hwf hb
  constructor
  · rintro ⟨j, hj, hoid⟩
    have hfbj : getFirstByteOfOid (ds.getD j 0) = getFirstByteOfOid oid := by rw [hoid]
    have hjlt : j < idx.fanoutTable.getD (getFirstByteOfOid oid) 0 := by
      rw [← wellFormed_pos_iff hwf hb hj, hfbj]
    have hjge : (if getFirstByteOfOid oid > 0 then
        idx.fanoutTable.getD (getFirstByteOfOid oid - 1) 0 else 0) ≤ j := by
      split
      · rename_i hbpos
        by_contra hlt
        push_neg at hlt
        have := (wellFormed_pos_iff hwf (b := getFirstByteOfOid oid - 1)
          (by omega) hj).mpr hlt
        rw [hfbj] at this
        omega
      · omega
    obtain ⟨i, hi1, hi2, hi3, hi4⟩ := findIndexForLoop_finds hwf oid j hj hoid
      (idx.fanoutTable.getD (getFirstByteOfOid oid) 0) _ _ (by omega) hend hjge hjlt
    refine ⟨i, hi1, ?_, ?_, hi3⟩
    · rw [hwf.2.2.2.1 i (by omega), hi4]
    · intro hbpos
      rw [if_pos hbpos] at hi2
      exact hi2
  · intro habs
    exact findIndexForLoop_none hwf oid habs
      (idx.fanoutTable.getD (getFirstByteOfOid oid) 0) _ _ (by omega) hend

set_option maxRecDepth 1000000 in
theorem exampleIdx_wellFormed : exampleIdx.wellFormed exampleDigests := by decide

/-- C3 witness: the search theorem applied to the concrete two-object index,
once at a present oid and once at an absent one. -/
theorem c3_find_index_for_witness :
    (∃ i, exampleIdx.findIndexFor exampleOid0 = .ok (some i) ∧
      exampleIdx.getOidAtIndex i = some exampleOid0 ∧
      (0 < getFirstByteOfOid exampleOid0 →
        exampleIdx.fanoutTable.getD (getFirstByteOfOid exampleOid0 - 1) 0 ≤ i) ∧
      i < exampleIdx.fanoutTable.getD (getFirstByteOfOid exampleOid0) 0) ∧
    exampleIdx.findIndexFor 5 = .ok none :=
  ⟨(c3_find_index_for exampleIdx exampleDigests exampleIdx_wellFormed exampleOid0).1
      ⟨0, by decide, by decide⟩,
   (c3_find_index_for exampleIdx exampleDigests exampleIdx_wellFormed 5).2 (by decide)⟩

/-! ## C10 — contains_oid totality -/

/-- C10: `contains_oid` is `true` exactly on `Ok(Some _)` and `false` both
on `Ok(None)` and on any error from `find_index_for`. -/
theorem c10_contains_oid_total (idx : IDXFile) (oid : Nat) :
    (idx.containsOid oid = true ↔ ∃ i, idx.findIndexFor oid = .ok (some i)) ∧
    (idx.findIndexFor oid = .ok none → idx.containsOid oid = false) ∧
    (∀ e, idx.findIndexFor oid = .error e → idx.containsOid oid = false) := by
  unfold IDXFile.containsOid
  rcases h : idx.findIndexFor oid with e | o
  · refine ⟨⟨fun hc => by simp at hc, ?_⟩, fun hn => by simp at hn, fun e2 _ => rfl⟩
    rintro ⟨i, hi⟩
    simp at hi
  · cases o with
    | none =>
      refine ⟨⟨fun hc => by simp at hc, ?_⟩, fun _ => rfl, fun e2 he => by simp at he⟩
      rintro ⟨i, hi⟩
      simp at hi
    | some i =>
      refine ⟨⟨fun _ => ⟨i, rfl⟩, fun _ => rfl⟩, fun hn => by simp at hn,
        fun e2 he => by simp at he⟩

/-! ## C2 — the fanout-bounded partial-match walk -/

theorem oidStartAt_succ (idx : IDXFile) (p : Nat) :
    idx.oidStartAt (p + 1) = idx.oidStartAt p + idx.seekUp := by
  unfold IDXFile.oidStartAt IDXFile.seekUp
  cases idx.version <;> ring

theorem getOidAtIndex_eq_oidStartAt (idx : IDXFile) (p : Nat) :
    idx.getOidAtIndex p =
      (getRange idx.file (idx.oidStartAt p) SHA1_SIZE).map fullSliceOidToU128Oid := by
  unfold IDXFile.getOidAtIndex IDXFile.oidStartAt
  cases idx.version
  · have harith : V1_HEADER_SIZE + p * (FANOUT_ENTRY_SIZE + SHA1_SIZE) + FANOUT_ENTRY_SIZE =
        V1_HEADER_SIZE + FANOUT_ENTRY_SIZE + p * (FANOUT_ENTRY_SIZE + SHA1_SIZE) := by ring
    rw [harith]
  · rfl

/-- One-step unfolding of the oid walker at positive fuel. -/
theorem walkLoop_succ (idx : IDXFile) (seekUp : Nat) (stop : Nat → Nat → Bool)
    (startIndex fanoutIndex fuel : Nat) :
    walkLoop idx seekUp stop startIndex fanoutIndex (fuel + 1) =
      match getRange idx.file startIndex SHA1_SIZE with
      | none => none
      | some shaBytes =>
        let oid := fullSliceOidToU128Oid shaBytes
        if stop oid fanoutIndex then some [(oid, fanoutIndex)]
        else
          match walkLoop idx seekUp stop (startIndex + seekUp) (fanoutIndex + 1) fuel with
          | none => none
          | some rest => some ((oid, fanoutIndex) :: rest) := rfl

/-- The walker, started at position `p`, visits exactly the positions
`p, …, hp` when the stop callback is false before `hp` and true at `hp`. -/
theorem walkLoop_window {idx : IDXFile} {ds : List Nat} (hwf : idx.wellFormed ds)
    (stop : Nat → Nat → Bool) (hp : Nat) (hhp : hp < idx.numObjects)
    (hstopAt : stop (ds.getD hp 0) hp = true) :
    ∀ (n p fuel : Nat), hp - p ≤ n → p ≤ hp → hp + 1 - p ≤ fuel →
      (∀ q, p ≤ q → q < hp → stop (ds.getD q 0) q = false) →
      walkLoop idx idx.seekUp stop (idx.oidStartAt p) p fuel =
        some ((List.range' p (hp + 1 - p)).map (fun q => (ds.getD q 0, q))) := by
  intro n
  induction n with
  | zero =>
    intro p fuel hn hple hfuel hnostop
    have hpeq : p = hp := by omega
    subst hpeq
    obtain ⟨f, rfl⟩ : ∃ f, fuel = f + 1 := ⟨fuel - 1, by omega⟩
    have hread := hwf.2.2.2.1 p hhp
    rw [getOidAtIndex_eq_oidStartAt] at hread
    cases hg : getRange idx.file (idx.oidStartAt p) SHA1_SIZE with
    | none => rw [hg] at hread; simp at hread
    | some bytes =>
      rw [hg] at hread
      simp only [Option.map_some'] at hread
      rw [Option.some.injEq] at hread
      rw [walkLoop_succ]
      simp only [hg, hread, hstopAt, if_true]
      have h1 : p + 1 - p = 1 := by omega
      rw [h1]
      simp [List.range']
  | succ n ih =>
    intro p fuel hn hple hfuel hnostop
    rcases Nat.eq_or_lt_of_le hple with hpeq | hplt
    · subst hpeq
      exact ih p fuel (by omega) (le_refl p) hfuel hnostop
    · obtain ⟨f, rfl⟩ : ∃ f, fuel = f + 1 := ⟨fuel - 1, by omega⟩
      have hpnum : p < idx.numObjects := by omega
      have hread := hwf.2.2.2.1 p hpnum
      rw [getOidAtIndex_eq_oidStartAt] at hread
      cases hg : getRange idx.file (idx.oidStartAt p) SHA1_SIZE with
      | none => rw [hg] at hread; simp at hread
      | some bytes =>
        rw [hg] at hread
        simp only [Option.map_some'] at hread
        rw [Option.some.injEq] at hread
        rw [walkLoop_succ]
        simp only [hg, hread]
        rw [hnostop p (le_refl p) hplt, if_neg (by simp), ← oidStartAt_succ]
        rw [ih (p + 1) f (by omega) (by omega) (by omega)
          (fun q hq1 hq2 => hnostop q (by omega) hq2)]
        have h1 : hp + 1 - p = (hp - p) + 1 := by omega
        have h2 : hp + 1 - (p + 1) = hp - p := by omega
        rw [h1, h2, List.range'_succ]
        simp

theorem walkAllOids_from_some (idx : IDXFile) (b : Nat) (stop : Nat → Nat → Bool) :
    idx.walkAllOidsWithIndexAndFrom (some b) stop =
      walkLoop idx idx.seekUp stop
        (idx.oidStartAt (if b > 0 then idx.fanoutTable.getD (b - 1) 0 else 0))
        (if b > 0 then idx.fanoutTable.getD (b - 1) 0 else 0) idx.numObjects := by
  unfold IDXFile.walkAllOidsWithIndexAndFrom IDXFile.oidStartAt IDXFile.seekUp
  cases idx.version <;> simp

/-- C2 (amended): on a well-formed index that holds some digest whose first
byte exceeds the partial's first byte `b`, the partial-match walk starts at
`fanout[b-1]` (0 when `b = 0`) and invokes the match test exactly on the
digests at fanout positions `fanout[b-1], …, fanout[b]` — that is, also on
the digest at position `fanout[b]`, the first one whose first byte exceeds
`b`, at which the walk halts.  Digests strictly inside the window have first
byte at most `b`. -/
theorem c2_packed_walk_window (idx : IDXFile) (ds : List Nat) (p : PartialOid)
    (hwf : idx.wellFormed ds)
    (hstopper : ∃ j, j < idx.numObjects ∧
      getFirstByteOfOid p.oid < getFirstByteOfOid (ds.getD j 0)) :
    findMatchingOidsPackedVisits idx p =
      some ((List.range'
        (if 0 < getFirstByteOfOid p.oid then
          idx.fanoutTable.getD (getFirstByteOfOid p.oid - 1) 0 else 0)
        (idx.fanoutTable.getD (getFirstByteOfOid p.oid) 0 + 1 -
          (if 0 < getFirstByteOfOid p.oid then
            idx.fanoutTable.getD (getFirstByteOfOid p.oid - 1) 0 else 0))).map
        (fun q => (ds.getD q 0, q))) ∧
    (∀ q, (if 0 < getFirstByteOfOid p.oid then
        idx.fanoutTable.getD (getFirstByteOfOid p.oid - 1) 0 else 0) ≤ q →
      q < idx.fanoutTable.getD (getFirstByteOfOid p.oid) 0 →
      getFirstByteOfOid (ds.getD q 0) ≤ getFirstByteOfOid p.oid) ∧
    getFirstByteOfOid p.oid <
      getFirstByteOfOid (ds.getD (idx.fanoutTable.getD (getFirstByteOfOid p.oid) 0) 0) := by
  set b := getFirstByteOfOid p.oid with hbdef
  have hb255 : b < 256 := by
    have := getFirstByteOfOid_le_255 p.oid
    omega
  obtain ⟨j, hj, hfbj⟩ := hstopper
  have hjge : idx.fanoutTable.getD b 0 ≤ j := by
    by_contra hlt
    push_neg at hlt
    have := (wellFormed_pos_iff hwf hb255 hj).mpr hlt
    omega
  have hhbnum : idx.fanoutTable.getD b 0 < idx.numObjects := by omega
  have hhalt : b < getFirstByteOfOid (ds.getD (idx.fanoutTable.getD b 0) 0) := by
    by_contra hle
    push_neg at hle
    have := (wellFormed_pos_iff hwf hb255 hhbnum).mp hle
    omega
  have hlole : (if 0 < b then idx.fanoutTable.getD (b - 1) 0 else 0) ≤
      idx.fanoutTable.getD b 0 := by
    split
    · exact wellFormed_fanout_mono hwf (by omega) hb255
    · omega
  have hnostop : ∀ q, (if 0 < b then idx.fanoutTable.getD (b - 1) 0 else 0) ≤ q →
      q < idx.fanoutTable.getD b 0 →
      (fun oid _ => decide (getFirstByteOfOid oid > b)) (ds.getD q 0) q = false := by
    intro q _ hq2
    have hfb : getFirstByteOfOid (ds.getD q 0) ≤ b :=
      (wellFormed_pos_iff hwf hb255 (by omega)).mpr hq2
    simp only [gt_iff_lt, decide_eq_false_iff_not, not_lt]
    exact hfb
  have hstopAt : (fun oid _ => decide (getFirstByteOfOid oid > b))
      (ds.getD (idx.fanoutTable.getD b 0) 0) (idx.fanoutTable.getD b 0) = true := by
    simp only [gt_iff_lt, decide_eq_true_eq]
    exact hhalt
  have hwindow := walkLoop_window hwf
    (fun oid _ => decide (getFirstByteOfOid oid > b))
    (idx.fanoutTable.getD b 0) hhbnum hstopAt
    (idx.fanoutTable.getD b 0 - (if 0 < b then idx.fanoutTable.getD (b - 1) 0 else 0))
    (if 0 < b then idx.fanoutTable.getD (b - 1) 0 else 0) idx.numObjects
    (by omega) hlole (by omega) hnostop
  refine ⟨?_, ?_, hhalt⟩
  · unfold findMatchingOidsPackedVisits
    rw [← hbdef, walkAllOids_from_some]
    exact hwindow
  · intro q hq1 hq2
    exact (wellFormed_pos_iff hwf hb255 (by omega)).mpr hq2

set_option maxRecDepth 1000000 in
/-- C2 counterexample: on the concrete well-formed two-digest index and the
partial id with first byte `0x10`, the match test is also invoked on the
digest at fanout position `fanout[0x10] = 1`, which lies outside the claimed
window `[fanout[0x0f], fanout[0x10]) = [0, 1)`. -/
theorem c2_packed_walk_counterexample :
    exampleIdx.wellFormed exampleDigests ∧
    getFirstByteOfOid examplePartial.oid = 16 ∧
    exampleIdx.fanoutTable.getD 15 0 = 0 ∧
    exampleIdx.fanoutTable.getD 16 0 = 1 ∧
    findMatchingOidsPackedVisits exampleIdx examplePartial =
      some [(exampleOid0, 0), (exampleOid1, 1)] ∧
    [(exampleOid0, 0), (exampleOid1, 1)].map Prod.snd ≠ List.range' 0 (1 - 0) :=
  ⟨exampleIdx_wellFormed, by decide, by decide, by decide, by decide, by decide⟩

/-- C2 witness: the amended window theorem applied to the concrete index and
partial id. -/
theorem c2_packed_walk_window_witness :
    findMatchingOidsPackedVisits exampleIdx examplePartial =
      some ((List.range'
        (if 0 < getFirstByteOfOid examplePartial.oid then
          exampleIdx.fanoutTable.getD (getFirstByteOfOid examplePartial.oid - 1) 0 else 0)
        (exampleIdx.fanoutTable.getD (getFirstByteOfOid examplePartial.oid) 0 + 1 -
          (if 0 < getFirstByteOfOid examplePartial.oid then
            exampleIdx.fanoutTable.getD (getFirstByteOfOid examplePartial.oid - 1) 0 else 0))).map
        (fun q => (exampleDigests.getD q 0, q))) ∧
    (∀ q, (if 0 < getFirstByteOfOid examplePartial.oid then
        exampleIdx.fanoutTable.getD (getFirstByteOfOid examplePartial.oid - 1) 0 else 0) ≤ q →
      q < exampleIdx.fanoutTable.getD (getFirstByteOfOid examplePartial.oid) 0 →
      getFirstByteOfOid (exampleDigests.getD q 0) ≤ getFirstByteOfOid examplePartial.oid) ∧
    getFirstByteOfOid examplePartial.oid <
      getFirstByteOfOid (exampleDigests.getD
        (exampleIdx.fanoutTable.getD (getFirstByteOfOid examplePartial.oid) 0) 0) :=
  c2_packed_walk_window exampleIdx exampleDigests examplePartial exampleIdx_wellFormed
    ⟨1, by decide, by decide⟩

/-! ## C5 — the ofs-delta header and the biased negative-offset varint -/

theorem shiftLeft7_or_eq_add (a x : Nat) (hx : x < 128) :
    (a <<< 7) ||| x = (a <<< 7) + x := by
  have h27 : (128 : Nat) = 2 ^ 7 := by norm_num
  rw [h27] at hx
  have hsl : a <<< 7 = 2 ^ 7 * a := by rw [Nat.shiftLeft_eq, Nat.mul_comm]
  apply Nat.eq_of_testBit_eq
  intro j
  rw [Nat.testBit_lor]
  conv_rhs => rw [hsl]
  rw [Nat.testBit_mul_pow_two_add a hx j]
  by_cases hj : j < 7
  · rw [if_pos hj, Nat.testBit_shiftLeft]
    simp [show ¬ (j ≥ 7) from by omega]
  · rw [if_neg hj, Nat.testBit_shiftLeft]
    have hx0 : x.testBit j = false := Nat.testBit_lt_two_pow (by
      calc x < 2 ^ 7 := hx
      _ ≤ 2 ^ j := Nat.pow_le_pow_right (by omega) (by omega))
    simp [hx0, show j ≥ 7 from by omega]

theorem specBiasedGo_unfold (cur : Nat) (rest : List Nat) (v n : Nat) :
    specBiasedGo cur rest v n =
      if cur &&& 0x80 = 0 then some (v, n)
      else
        match rest with
        | [] => none
        | next :: rest' =>
          specBiasedGo next rest' (((v + 1) <<< 7) ||| (next &&& 0x7f)) (n + 1) := by
  rw [specBiasedGo.eq_def]

/-- One wrapping accumulator step agrees with the ideal biased step reduced
modulo `2 ^ 64`: the shifted value has its low 7 bits clear, so adding the
next 7-bit payload never carries across the wrap boundary. -/
theorem shiftWrapStep (v c : Nat) (hc : c < 128) :
    ((v % 2 ^ 64 + 1) <<< 7) % 2 ^ 64 + c = (((v + 1) <<< 7) + c) % 2 ^ 64 := by
  rw [Nat.shiftLeft_eq, Nat.shiftLeft_eq]
  have h1 : (v % 2 ^ 64 + 1) * 2 ^ 7 % 2 ^ 64 = (v + 1) * 2 ^ 7 % 2 ^ 64 :=
    ((Nat.mod_modEq v (2 ^ 64)).add_right 1).mul_right (2 ^ 7)
  obtain ⟨q, hq⟩ := (Nat.dvd_mod_iff
      (show (2 ^ 7 : Nat) ∣ 2 ^ 64 from ⟨2 ^ 57, by norm_num⟩)).mpr
    (show (2 ^ 7 : Nat) ∣ (v + 1) * 2 ^ 7 from ⟨v + 1, by ring⟩)
  have h3 : (v + 1) * 2 ^ 7 % 2 ^ 64 < 2 ^ 64 := Nat.mod_lt _ (by norm_num)
  rw [h1, Nat.add_mod ((v + 1) * 2 ^ 7) c, hq] at *
  rw [Nat.mod_eq_of_lt (show c < 2 ^ 64 by omega)]
  exact (Nat.mod_eq_of_lt (by omega)).symm

theorem findNegativeOffsetLoop_eq (rest : List Nat) :
    ∀ (v n : Nat), findNegativeOffsetLoop rest (v % 2 ^ 64) n =
      Option.map (fun p => (p.1 % 2 ^ 64, p.2))
      (match rest with
      | [] => none
      | next :: rest' =>
        specBiasedGo next rest' (((v + 1) <<< 7) ||| (next &&& 0x7f)) (n + 1)) := by
  induction rest with
  | nil => intro v n; rfl
  | cons next rest' ih =>
    intro v n
    have hc : next &&& 0x7f < 128 := lt_of_le_of_lt Nat.and_le_right (by norm_num)
    have hor : ((v + 1) <<< 7) ||| (next &&& 0x7f) = ((v + 1) <<< 7) + (next &&& 0x7f) :=
      shiftLeft7_or_eq_add _ _ hc
    have hstep : ((v % 2 ^ 64 + 1) <<< 7) % 2 ^ 64 + (next &&& 0x7f) =
        (((v + 1) <<< 7) ||| (next &&& 0x7f)) % 2 ^ 64 := by
      rw [hor]
      exact shiftWrapStep v _ hc
    show findNegativeOffsetLoop (next :: rest') (v % 2 ^ 64) n =
      Option.map (fun p => (p.1 % 2 ^ 64, p.2))
        (specBiasedGo next rest' (((v + 1) <<< 7) ||| (next &&& 0x7f)) (n + 1))
    conv_rhs => rw [specBiasedGo_unfold]
    simp only [findNegativeOffsetLoop]
    by_cases hmsb : next &&& 0x80 = 0
    · rw [if_pos hmsb, if_pos hmsb]
      show some (((v % 2 ^ 64 + 1) <<< 7) % 2 ^ 64 + (next &&& 0x7f), n + 1) = _
      rw [hstep]
      rfl
    · rw [if_neg hmsb, if_neg hmsb]
      show findNegativeOffsetLoop rest'
        (((v % 2 ^ 64 + 1) <<< 7) % 2 ^ 64 + (next &&& 0x7f)) (n + 1) = _
      rw [hstep, ih]

/-- `find_negative_offset` computes the claim's biased algorithm with its
accumulator reduced modulo `2 ^ 64`: the Rust `usize` shift discards bits
64 and above. -/
theorem findNegativeOffset_eq_specBiasedDecode :
    ∀ d : List Nat, findNegativeOffset d =
      Option.map (fun p => (p.1 % 2 ^ 64, p.2)) (specBiasedDecode d) := by
  intro d
  cases d with
  | nil => rfl
  | cons b0 rest =>
    simp only [findNegativeOffset, specBiasedDecode]
    conv_rhs => rw [specBiasedGo_unfold]
    have hb0 : b0 &&& 0x7f < 2 ^ 64 := lt_of_le_of_lt Nat.and_le_right (by norm_num)
    by_cases hmsb : b0 &&& 0x80 = 0
    · rw [if_pos hmsb, if_pos hmsb]
      show some (b0 &&& 0x7f, 1) = some ((b0 &&& 0x7f) % 2 ^ 64, 1)
      rw [Nat.mod_eq_of_lt hb0]
    · rw [if_neg hmsb, if_neg hmsb]
      conv_lhs => rw [show b0 &&& 0x7f = (b0 &&& 0x7f) % 2 ^ 64 from
        (Nat.mod_eq_of_lt hb0).symm]
      rw [findNegativeOffsetLoop_eq]

/-- C5 counterexample: a 10-byte negative-offset varint whose ideal biased
value is `2 ^ 64 + 5 > 12`, for which the claim demands an error; the
`usize` accumulator of `find_negative_offset` wraps it to `5`, so the parser
accepts the entry at offset 12 as `OfsDelta (12 - 5)`. -/
theorem c5_ofs_delta_counterexample :
    specBiasedDecode
        ([128, 254, 254, 254, 254, 254, 254, 254, 255, 5] ++ List.replicate 8 0) =
      some (18446744073709551621, 10) ∧
    (12 : Nat) < 18446744073709551621 ∧
    (18446744073709551621 : Nat) % 2 ^ 64 = 5 ∧
    examplePackWrap.getObjectTypeAndLenAtIndex 12 = .ok (.ofsDelta (12 - 5), 0, 23) := by
  refine ⟨by rfl, by norm_num, by norm_num, by rfl⟩

/-- C5 (amended): for an entry at offset `i` whose header parses as OfsDelta
with size varint consuming `n` bytes, the negative offset is decoded from
the 18-byte segment at `i + n` by the biased algorithm
`v = b0 & 0x7F; while msb: v = ((v + 1) << 7) | (next & 0x7F)` computed in a
64-bit accumulator, i.e. it yields `v % 2 ^ 64`; the entry is classified as
`OfsDelta (i - v % 2 ^ 64)` when `v % 2 ^ 64 ≤ i` and rejected with an error
when `v % 2 ^ 64 > i`. -/
theorem c5_ofs_delta_header (pack : PackFile) (i len n : Nat) (negSeg : List Nat)
    (hheader : packHeaderParse pack.file i = .ok (.ofsDelta, len, n))
    (hneg : getRange pack.file (i + n) 18 = some negSeg) :
    (∀ d : List Nat, findNegativeOffset d =
      Option.map (fun p => (p.1 % 2 ^ 64, p.2)) (specBiasedDecode d)) ∧
    (match specBiasedDecode negSeg with
      | some (v, k) =>
        (v % 2 ^ 64 ≤ i → pack.getObjectTypeAndLenAtIndex i =
          .ok (.ofsDelta (i - v % 2 ^ 64), len, i + n + k)) ∧
        (i < v % 2 ^ 64 → ∃ e, pack.getObjectTypeAndLenAtIndex i = .error e)
      | none => ∃ e, pack.getObjectTypeAndLenAtIndex i = .error e) := by
  refine ⟨findNegativeOffset_eq_specBiasedDecode, ?_⟩
  unfold PackFile.getObjectTypeAndLenAtIndex
  simp only [hheader]
  simp only [hneg]
  rw [findNegativeOffset_eq_specBiasedDecode negSeg]
  cases hd : specBiasedDecode negSeg with
  | none => exact ⟨_, rfl⟩
  | some vk =>
    obtain ⟨v, k⟩ := vk
    constructor
    · intro hvi
      show (if v % 2 ^ 64 > i then Except.error
          "Detected a offset delta object that points farther than the beginning of the file"
        else Except.ok (PackObjType.ofsDelta (i - v % 2 ^ 64), len, i + n + k)) = _
      rw [if_neg (by omega)]
    · intro hiv
      show ∃ e, (if v % 2 ^ 64 > i then Except.error
          "Detected a offset delta object that points farther than the beginning of the file"
        else Except.ok (PackObjType.ofsDelta (i - v % 2 ^ 64), len, i + n + k)) = Except.error e
      rw [if_pos (by omega)]
      exact ⟨_, rfl⟩

/-- C5 witness: the header theorem applied to two concrete packs, one whose
offset 5 stays inside the file and one whose offset 127 reaches before the
file start. -/
theorem c5_ofs_delta_header_witness :
    ((∀ d : List Nat, findNegativeOffset d =
      Option.map (fun p => (p.1 % 2 ^ 64, p.2)) (specBiasedDecode d)) ∧
    (match specBiasedDecode (5 :: List.replicate 17 0) with
      | some (v, k) =>
        (v % 2 ^ 64 ≤ 12 → examplePack.getObjectTypeAndLenAtIndex 12 =
          .ok (.ofsDelta (12 - v % 2 ^ 64), 0, 12 + 1 + k)) ∧
        (12 < v % 2 ^ 64 → ∃ e, examplePack.getObjectTypeAndLenAtIndex 12 = .error e)
      | none => ∃ e, examplePack.getObjectTypeAndLenAtIndex 12 = .error e)) ∧
    ((∀ d : List Nat, findNegativeOffset d =
      Option.map (fun p => (p.1 % 2 ^ 64, p.2)) (specBiasedDecode d)) ∧
    (match specBiasedDecode (127 :: List.replicate 17 0) with
      | some (v, k) =>
        (v % 2 ^ 64 ≤ 12 → examplePackFar.getObjectTypeAndLenAtIndex 12 =
          .ok (.ofsDelta (12 - v % 2 ^ 64), 0, 12 + 1 + k)) ∧
        (12 < v % 2 ^ 64 → ∃ e, examplePackFar.getObjectTypeAndLenAtIndex 12 = .error e)
      | none => ∃ e, examplePackFar.getObjectTypeAndLenAtIndex 12 = .error e)) :=
  ⟨c5_ofs_delta_header examplePack 12 0 1 (5 :: List.replicate 17 0) (by rfl) (by rfl),
   c5_ofs_delta_header examplePackFar 12 0 1 (127 :: List.replicate 17 0) (by rfl) (by rfl)⟩

/-! ## C6 — reading a loose blob through the facade -/

/-- C6: the loose file whose decompressed form is `"blob 5\0hello"`, read
through `get_loose_object` (skip-blob-body flag false), yields an object of
type `Blob` whose payload is `b"hello"` of size 5. -/
theorem c6_loose_blob_read :
    getLooseObjectSpec (asciiBytes "blob 5" ++ [0] ++ asciiBytes "hello") =
      .ok (.blob, asciiBytes "hello") ∧
    (asciiBytes "hello").length = 5 :=
  ⟨rfl, rfl⟩

/-! ## C7 — enumeration over a missing loose folder -/

/-- C7 counterexample: with every folder absent from the filesystem (so in
particular the partial id's two-hex loose folder), the loose enumeration
`find_matching_oids_loose` surfaces the `NotFound` io error instead of
returning `Ok` with zero matches. -/
theorem c7_missing_folder_counterexample :
    findMatchingOidsLoose exampleMinState (fun _ => none) examplePartial =
      .err ⟨.notFound, "No such file or directory"⟩ := rfl

/-- C7 (amended): when the partial id's loose folder does not exist,
`find_matching_oids_loose` (through `MinState::iter_loose_folder`, which
uses `search_folder_out`) returns the `NotFound` io error; only the
`iter_all_known_objects` path (`get_all_loose_oids_at_folder`, which uses
`search_folder_out_missing_ok`) treats the missing folder as empty. -/
theorem c7_missing_folder (st : MinState) (db : LightObjectDB) (fs : FileSystem)
    (p : PartialOid)
    (hmiss : fs (st.looseFolderSearchPath (getFirstByteOfOid p.oid)) = none)
    (hmiss2 : fs (db.looseFolderSearchPath (getFirstByteOfOid p.oid)) = none) :
    findMatchingOidsLoose st fs p = .err ⟨.notFound, "No such file or directory"⟩ ∧
    db.getAllLooseOidsAtFolder fs (getFirstByteOfOid p.oid) = .ok [] := by
  constructor
  · unfold findMatchingOidsLoose MinState.iterLooseFolder readDir
    simp only [hmiss]
  · unfold LightObjectDB.getAllLooseOidsAtFolder searchFolderOutMissingOk readDir
    simp only [hmiss2]
    rfl

/-- C7 witness: the amended theorem at the concrete state, database and
all-missing filesystem. -/
theorem c7_missing_folder_witness :
    findMatchingOidsLoose exampleMinState (fun _ => none)
      (PartialOid.mk (0x20 <<< 120) 120 0x20) =
      .err ⟨.notFound, "No such file or directory"⟩ ∧
    exampleLightDB.getAllLooseOidsAtFolder (fun _ => none)
      (getFirstByteOfOid (PartialOid.mk (0x20 <<< 120) 120 0x20).oid) = .ok [] :=
  c7_missing_folder exampleMinState exampleLightDB (fun _ => none)
    (PartialOid.mk (0x20 <<< 120) 120 0x20) rfl rfl

/-! ## C8 — the base-path length guard -/

/-- C8 counterexample: a base path of exactly 4036 bytes is rejected by both
`MinState::new` and `LightObjectDB::new`, although the claim requires every
length up to and including 4036 to be accepted. -/
theorem c8_path_length_counterexample :
    MinState.new (List.replicate 4036 97) =
      .error ⟨.other, "Path is too long for us to represent it without allocations"⟩ ∧
    LightObjectDB.new (List.replicate 4036 97) =
      .error ⟨.other, "Path is too long for us to represent it without allocations"⟩ := by
  have hlen : (List.replicate 4036 97).length = 4036 := List.length_replicate 4036 97
  constructor
  · unfold MinState.new
    rw [if_pos (by rw [hlen]; norm_num [MAX_PATH_TO_DB_LEN])]
  · unfold LightObjectDB.new
    rw [if_pos (by rw [hlen]; norm_num [MAX_PATH_TO_DB_LEN])]

/-- C8 (amended): `MinState::new` and `LightObjectDB::new` accept exactly the
base paths of byte length at most 4035; every length from 4036 (that is,
`MAX_PATH_TO_DB_LEN - 60`) up is rejected with an error. -/
theorem c8_new_path_length_guard (p : List Nat) :
    (exceptIsOk (MinState.new p) = true ↔ p.length ≤ 4035) ∧
    (exceptIsOk (LightObjectDB.new p) = true ↔ p.length ≤ 4035) := by
  have hlen : MAX_PATH_TO_DB_LEN - 60 = 4036 := rfl
  constructor
  · unfold MinState.new
    by_cases h : p.length ≥ MAX_PATH_TO_DB_LEN - 60
    · rw [if_pos h]
      simp only [exceptIsOk]
      constructor
      · intro hfalse
        exact absurd hfalse (by simp)
      · intro hle
        omega
    · rw [if_neg h]
      simp only [exceptIsOk]
      constructor
      · intro _
        omega
      · intro _
        trivial
  · unfold LightObjectDB.new
    by_cases h : p.length ≥ MAX_PATH_TO_DB_LEN - 60
    · rw [if_pos h]
      simp only [exceptIsOk]
      constructor
      · intro hfalse
        exact absurd hfalse (by simp)
      · intro hle
        omega
    · rw [if_neg h]
      simp only [exceptIsOk]
      constructor
      · intro _
        omega
      · intro _
        trivial

/-- C8 witness: the length guard applied at the 7-byte path `"objects"`. -/
theorem c8_new_path_length_guard_witness :
    (exceptIsOk (MinState.new (asciiBytes "objects")) = true ↔
      (asciiBytes "objects").length ≤ 4035) ∧
    (exceptIsOk (LightObjectDB.new (asciiBytes "objects")) = true ↔
      (asciiBytes "objects").length ≤ 4035) :=
  c8_new_path_length_guard (asciiBytes "objects")

/-- C10 witness: `contains_oid` totality applied at the concrete index, once
for a present oid and once for an absent one. -/
theorem c10_contains_oid_total_witness :
    ((exampleIdx.containsOid exampleOid0 = true ↔
      ∃ i, exampleIdx.findIndexFor exampleOid0 = .ok (some i)) ∧
    (exampleIdx.findIndexFor exampleOid0 = .ok none →
      exampleIdx.containsOid exampleOid0 = false) ∧
    (∀ e, exampleIdx.findIndexFor exampleOid0 = .error e →
      exampleIdx.containsOid exampleOid0 = false)) ∧
    ((exampleIdx.containsOid 5 = true ↔
      ∃ i, exampleIdx.findIndexFor 5 = .ok (some i)) ∧
    (exampleIdx.findIndexFor 5 = .ok none → exampleIdx.containsOid 5 = false) ∧
    (∀ e, exampleIdx.findIndexFor 5 = .error e → exampleIdx.containsOid 5 = false)) :=
  ⟨c10_contains_oid_total exampleIdx exampleOid0, c10_contains_oid_total exampleIdx 5⟩

end GitReader
